import Mathlib

/-!
Shallow embedding of the `optimizer-core` packing engine
(`src/crates/optimizer-core/src/optimizer/{mod,layout,optional,summary}.rs`
and `src/crates/optimizer-core/src/types.rs`) in Lean 4, together with
theorems settling the specification claims about it.

Real (`f64`) arithmetic of the source is modelled by exact rational
arithmetic (`ℚ`); machine constants such as `f64::EPSILON` are carried over
literally as rationals.
-/

unseal Nat.gcd Rat.mul Rat.inv Rat.add Rat.sub List.merge List.mergeSort

namespace CutOpt

/-- Absolute value written out with an `if`, mirroring `f64::abs`. -/
def qabs (q : ℚ) : ℚ := if q < 0 then -q else q

/-- Maximum of two rationals, mirroring `f64::max` on non-NaN values. -/
def qmax (a b : ℚ) : ℚ := if a ≤ b then b else a

/-- Minimum of two rationals, mirroring `f64::min` on non-NaN values. -/
def qmin (a b : ℚ) : ℚ := if a ≤ b then a else b

/-- Floor of a rational as an integer, mirroring `f64::floor`. -/
def qfloor (q : ℚ) : Int := Int.fdiv q.num q.den

/-- Total comparison on rationals: the model of `partial_cmp(..).unwrap_or(Equal)`
on non-NaN floats. -/
def ordQ (a b : ℚ) : Ordering := if a < b then .lt else if b < a then .gt else .eq

/-- Total comparison on integers, the model of `i32::cmp`. -/
def ordI (a b : Int) : Ordering := if a < b then .lt else if b < a then .gt else .eq

/-- Model of `f64::EPSILON` (`2⁻⁵²`), used by `place_on_new_panel` to detect
square panels. -/
def F64_EPS : ℚ := 1 / 2 ^ 52

/-- Stable sort by a Rust-style `Ordering` comparator; models `slice::sort_by`
(a stable sort). -/
def sortBy {α : Type} (c : α → α → Ordering) (l : List α) : List α :=
  l.mergeSort (fun a b => decide (c a b ≠ Ordering.gt))

/-! ## Data model (`types.rs`, completed from the spec where `src` is partial) -/

/-- Item to be cut (`types.rs::Item`). -/
structure Item where
  id : String
  width : ℚ
  height : ℚ
  quantity : Nat
  can_rotate : Bool
deriving DecidableEq, Repr

/-- Modelled from the spec: the `OptionalItem` record (an `Item` shape plus an
integer `priority`), used by `optional.rs` but missing from `src/types.rs`
(which declares `optional_items : Vec<Item>` while `optional.rs` imports
`crate::types::OptionalItem` and reads a `priority` field). -/
structure OptionalItem where
  id : String
  width : ℚ
  height : ℚ
  quantity : Nat
  can_rotate : Bool
  priority : Int
deriving DecidableEq, Repr

/-- Panel type (`types.rs::PanelType`). -/
structure PanelType where
  id : String
  width : ℚ
  height : ℚ
  trimming : ℚ
  optional_items : List OptionalItem
deriving DecidableEq, Repr

/-- Input request (`types.rs::OptimizationRequest`). -/
structure OptimizationRequest where
  cut_width : ℚ
  panel_types : List PanelType
  items : List Item
  min_initial_usage : Bool
  min_reusable_remnant_size : Option ℚ
  optimize_for_reusable_remnants : Bool
deriving DecidableEq, Repr

/-- Placement of an item on a panel (`types.rs::Placement`). -/
structure Placement where
  item_id : String
  x : ℚ
  y : ℚ
  width : ℚ
  height : ℚ
  rotated : Bool
deriving DecidableEq, Repr

/-- Output rectangle of unused area (`types.rs` / spec §6 `unused_areas`
entries). -/
structure UnusedAreaOut where
  x : ℚ
  y : ℚ
  width : ℚ
  height : ℚ
deriving DecidableEq, Repr

/-- Layout of a single panel (`types.rs::PanelLayout`; the `unused_areas`
field is written by `optimize` in `mod.rs` and described in spec §6, though
absent from the stale `src/types.rs` record). -/
structure PanelLayout where
  panel_type_id : String
  panel_number : Nat
  width : ℚ
  height : ℚ
  trimming : ℚ
  placements : List Placement
  unused_areas : List UnusedAreaOut
deriving DecidableEq, Repr

/-- Summary statistics (`types.rs::Summary`). -/
structure Summary where
  total_panels : Nat
  total_area : ℚ
  used_area : ℚ
  waste_area : ℚ
  waste_percentage : ℚ
  reusable_remnant_area : Option ℚ
  actual_waste_area : Option ℚ
  actual_waste_percentage : Option ℚ
deriving DecidableEq, Repr

/-- Optimizer output (`types.rs::OptimizationResult`). `panels_required` is the
`HashMap` modelled as an association list in first-encounter order. -/
structure OptimizationResult where
  panels_required : List (String × Nat)
  layouts : List PanelLayout
  summary : Summary
  optional_items_used : List String
deriving DecidableEq, Repr

/-- Error type (`types.rs::OptimizerError`). -/
inductive OptimizerError where
  | cannotFitAll : OptimizerError
  | invalidInput : String → OptimizerError
deriving DecidableEq, Repr

/-! ## Free-rectangle tracker (`layout.rs`) -/

/-- Internal free rectangle (`layout.rs::UnusedArea`). -/
structure UnusedArea where
  x : ℚ
  y : ℚ
  width : ℚ
  height : ℚ
deriving DecidableEq, Repr

namespace UnusedArea

/-- Containment of `other` in `self` up to `eps` (`layout.rs::contains`). -/
def contains (self other : UnusedArea) (eps : ℚ) : Bool :=
  decide (other.x ≥ self.x - eps) &&
  decide (other.y ≥ self.y - eps) &&
  decide (other.x + other.width ≤ self.x + self.width + eps) &&
  decide (other.y + other.height ≤ self.y + self.height + eps)

/-- Strict open-rectangle overlap test (`layout.rs::overlaps`). -/
def overlaps (self other : UnusedArea) : Bool :=
  decide (self.x < other.x + other.width) &&
  decide (self.x + self.width > other.x) &&
  decide (self.y < other.y + other.height) &&
  decide (self.y + self.height > other.y)

end UnusedArea

/-- Residual pieces of one free rectangle around a placed (kerf-expanded)
rectangle, in the push order of `split_free_rects_around_placement`:
left, right, bottom, top. Assumes `rect.overlaps placed`. -/
def split_one (rect placed : UnusedArea) : List UnusedArea :=
  (if placed.x > rect.x then
    [{ x := rect.x, y := rect.y, width := placed.x - rect.x, height := rect.height }]
  else []) ++
  (if placed.x + placed.width < rect.x + rect.width then
    [{ x := placed.x + placed.width, y := rect.y,
       width := rect.x + rect.width - (placed.x + placed.width), height := rect.height }]
  else []) ++
  (if placed.y > rect.y then
    [{ x := rect.x, y := rect.y, width := rect.width, height := placed.y - rect.y }]
  else []) ++
  (if placed.y + placed.height < rect.y + rect.height then
    [{ x := rect.x, y := placed.y + placed.height, width := rect.width,
       height := rect.y + rect.height - (placed.y + placed.height) }]
  else [])

/-- Removes rectangles fully contained (tolerance 0.5) in another rectangle of
the set (`layout.rs::prune_contained_rects`). -/
def prune_contained_rects (rects : List UnusedArea) : List UnusedArea :=
  ((rects.enum.filter (fun p =>
      !(rects.enum.any (fun q =>
          decide (q.1 ≠ p.1) && q.2.contains p.2 (1/2))))).map (·.2))

/-- Splits every free rectangle around a placed rectangle and prunes contained
results (`layout.rs::split_free_rects_around_placement`). -/
def split_free_rects_around_placement (free_rects : List UnusedArea)
    (placed : UnusedArea) : List UnusedArea :=
  prune_contained_rects
    (free_rects.flatMap (fun rect =>
      if rect.overlaps placed then split_one rect placed else [rect]))

/-- Kerf-expanded rectangle of a placement: the placement grown by `cut_width`
on its right and top sides (`layout.rs::find_unused_areas`, the `placed_rect`). -/
def placedRect (cut_width : ℚ) (p : Placement) : UnusedArea :=
  { x := p.x, y := p.y, width := p.width + cut_width, height := p.height + cut_width }

/-- Free-rectangle set of a layout (`layout.rs::find_unused_areas`). -/
def find_unused_areas (req : OptimizationRequest) (layout : PanelLayout) :
    List UnusedArea :=
  let usable_width := layout.width - layout.trimming * 2
  let usable_height := layout.height - layout.trimming * 2
  if usable_width ≤ 0 ∨ usable_height ≤ 0 then []
  else
    let init : List UnusedArea :=
      [{ x := layout.trimming, y := layout.trimming,
         width := usable_width, height := usable_height }]
    let free := layout.placements.foldl
      (fun rects p => split_free_rects_around_placement rects (placedRect req.cut_width p))
      init
    free.filter (fun r => decide (r.width > 1/2) && decide (r.height > 1/2))

/-! ## Placement scorer (`mod.rs::calculate_contact_score`,
`mod.rs::calculate_placement_score`) -/

/-- Contact score of a candidate placement with panel edges and existing
placements (`mod.rs::calculate_contact_score`). Higher is better. -/
def calculate_contact_score (req : OptimizationRequest) (x y width height : ℚ)
    (layout : PanelLayout) : ℚ :=
  let eps : ℚ := 1
  let contact : ℚ := 0
  let contact := if qabs (x - layout.trimming) < eps then contact + height else contact
  let contact := if qabs (y - layout.trimming) < eps then contact + width else contact
  let right_boundary := layout.width - layout.trimming
  let top_boundary := layout.height - layout.trimming
  let contact := if qabs (x + width - right_boundary) < eps then contact + height else contact
  let contact := if qabs (y + height - top_boundary) < eps then contact + width else contact
  layout.placements.foldl
    (fun contact placement =>
      let p_right := placement.x + placement.width
      let p_top := placement.y + placement.height
      let v_overlap_start := qmax y placement.y
      let v_overlap_end := qmin (y + height) p_top
      let contact :=
        if v_overlap_end > v_overlap_start then
          let v_overlap := v_overlap_end - v_overlap_start
          let contact :=
            if qabs (x - p_right - req.cut_width) < eps then contact + v_overlap else contact
          if qabs (x + width + req.cut_width - placement.x) < eps then contact + v_overlap
          else contact
        else contact
      let h_overlap_start := qmax x placement.x
      let h_overlap_end := qmin (x + width) p_right
      if h_overlap_end > h_overlap_start then
        let h_overlap := h_overlap_end - h_overlap_start
        let contact :=
          if qabs (y - p_top - req.cut_width) < eps then contact + h_overlap else contact
        if qabs (y + height + req.cut_width - placement.y) < eps then contact + h_overlap
        else contact
      else contact)
    contact

/-- Placement score; lower is better (`mod.rs::calculate_placement_score`). -/
def calculate_placement_score (req : OptimizationRequest) (x y width height : ℚ)
    (area : UnusedArea) (layout : PanelLayout) : ℚ :=
  let width_leftover := area.width - width - req.cut_width
  let height_leftover := area.height - height - req.cut_width
  let fit_ratio := (qmax width_leftover 0 * qmax height_leftover 0)
    / qmax (area.width * area.height) 1
  let sliver_penalty :=
    (if width_leftover > 0 ∧ width_leftover < 50 then (50 - width_leftover) * 10 else 0) +
    (if height_leftover > 0 ∧ height_leftover < 50 then (50 - height_leftover) * 10 else 0)
  let contact_score := calculate_contact_score req x y width height layout
  if req.min_initial_usage then
    let position_score := y * 100 + x * (1/10)
    let height_fit_bonus : ℚ :=
      if qabs height_leftover < 10 then -50000
      else if height_leftover > 0 ∧ height_leftover < 100 then -20000
      else 0
    let width_fit_bonus : ℚ :=
      if qabs width_leftover < 10 then -30000
      else if width_leftover > 0 ∧ width_leftover < 100 then -10000
      else 0
    position_score + fit_ratio * 10000 - contact_score * 500
      + sliver_penalty + height_fit_bonus + width_fit_bonus
  else if req.optimize_for_reusable_remnants then
    let position_score := y * 10000 + x
    position_score + sliver_penalty * 2 - contact_score * 50
  else
    let position_score := y * 10000 + x
    position_score - contact_score * 200 + sliver_penalty

/-! ## Candidate placement search (`mod.rs::find_best_placement`,
`mod.rs::generate_candidate_placements`, `optional.rs::try_place_item`) -/

/-- Keeps the strictly better (lower-score) candidate, first-wins on ties:
the `match best { .. if score < best_score .. }` pattern of `mod.rs`. -/
def considerCandidate (best : Option (Placement × ℚ)) (pl : Placement) (score : ℚ) :
    Option (Placement × ℚ) :=
  match best with
  | none => some (pl, score)
  | some (bp, bs) => if score < bs then some (pl, score) else some (bp, bs)

/-- Best placement of an item on an existing layout
(`mod.rs::find_best_placement`). -/
def find_best_placement (req : OptimizationRequest) (item : Item)
    (layout : PanelLayout) : Option (Placement × ℚ) :=
  (find_unused_areas req layout).foldl
    (fun best area =>
      let best :=
        if item.width ≤ area.width ∧ item.height ≤ area.height then
          considerCandidate best
            { item_id := item.id, x := area.x, y := area.y,
              width := item.width, height := item.height, rotated := false }
            (calculate_placement_score req area.x area.y item.width item.height area layout)
        else best
      if item.can_rotate ∧ item.height ≤ area.width ∧ item.width ≤ area.height then
        considerCandidate best
          { item_id := item.id, x := area.x, y := area.y,
            width := item.height, height := item.width, rotated := true }
          (calculate_placement_score req area.x area.y item.height item.width area layout)
      else best)
    none

/-- Every feasible placement of an item on a layout, with score and hosting
free-rectangle dimensions (`mod.rs::generate_candidate_placements`). -/
def generate_candidate_placements (req : OptimizationRequest) (item : Item)
    (layout : PanelLayout) : List (Placement × ℚ × ℚ × ℚ) :=
  (find_unused_areas req layout).flatMap (fun area =>
    (if item.width ≤ area.width ∧ item.height ≤ area.height then
      [({ item_id := item.id, x := area.x, y := area.y,
          width := item.width, height := item.height, rotated := false },
        calculate_placement_score req area.x area.y item.width item.height area layout,
        area.width, area.height)]
    else []) ++
    (if item.can_rotate ∧ item.height ≤ area.width ∧ item.width ≤ area.height then
      [({ item_id := item.id, x := area.x, y := area.y,
          width := item.height, height := item.width, rotated := true },
        calculate_placement_score req area.x area.y item.height item.width area layout,
        area.width, area.height)]
    else []))

/-- Minimum-score candidate placement, first-wins on ties
(`optional.rs::try_place_item`). -/
def try_place_item (req : OptimizationRequest) (item : Item)
    (layout : PanelLayout) : Option Placement :=
  ((generate_candidate_placements req item layout).foldl
    (fun best c =>
      match best with
      | none => some c
      | some b => if c.2.1 < b.2.1 then some c else some b)
    none).map (·.1)

/-! ## New-panel selection (`mod.rs::place_on_new_panel`,
`mod.rs::best_new_panel_placement`, `mod.rs::estimate_panel_capacity`) -/

/-- Copies of an item per fresh panel orientation for one item orientation
(`mod.rs::capacity_for_dims`). -/
def capacity_for_dims (req : OptimizationRequest) (item_width item_height
    usable_width usable_height : ℚ) : Nat :=
  if item_width ≤ 0 ∨ item_height ≤ 0 ∨ item_width > usable_width
      ∨ item_height > usable_height then 0
  else
    let step_w := item_width + req.cut_width
    let step_h := item_height + req.cut_width
    if step_w ≤ 0 ∨ step_h ≤ 0 then 0
    else
      let cols := (qfloor ((usable_width + req.cut_width) / step_w)).toNat
      let rows := (qfloor ((usable_height + req.cut_width) / step_h)).toNat
      cols * rows

/-- Capacity estimate over both item orientations
(`mod.rs::estimate_panel_capacity`). -/
def estimate_panel_capacity (req : OptimizationRequest) (item : Item)
    (panel_width panel_height trimming : ℚ) : Nat :=
  let usable_width := panel_width - trimming * 2
  let usable_height := panel_height - trimming * 2
  if usable_width ≤ 0 ∨ usable_height ≤ 0 then 0
  else
    let capacity_normal :=
      capacity_for_dims req item.width item.height usable_width usable_height
    let capacity_rotated :=
      if item.can_rotate then
        capacity_for_dims req item.height item.width usable_width usable_height
      else 0
    max capacity_normal capacity_rotated

/-- Best placement of an item at the trimming corner of a fresh panel
orientation (`mod.rs::best_new_panel_placement`). -/
def best_new_panel_placement (req : OptimizationRequest) (item : Item)
    (panel_type : PanelType) (panel_width panel_height : ℚ) :
    Option (Placement × ℚ) :=
  let usable_width := panel_width - panel_type.trimming * 2
  let usable_height := panel_height - panel_type.trimming * 2
  if usable_width ≤ 0 ∨ usable_height ≤ 0 then none
  else
    let layout : PanelLayout :=
      { panel_type_id := panel_type.id, panel_number := 1,
        width := panel_width, height := panel_height,
        trimming := panel_type.trimming, placements := [], unused_areas := [] }
    let area : UnusedArea :=
      { x := panel_type.trimming, y := panel_type.trimming,
        width := usable_width, height := usable_height }
    let best : Option (Placement × ℚ) :=
      if item.width ≤ usable_width ∧ item.height ≤ usable_height then
        some ({ item_id := item.id, x := panel_type.trimming, y := panel_type.trimming,
                width := item.width, height := item.height, rotated := false },
              calculate_placement_score req area.x area.y item.width item.height area layout)
      else none
    if item.can_rotate ∧ item.height ≤ usable_width ∧ item.width ≤ usable_height then
      considerCandidate best
        { item_id := item.id, x := panel_type.trimming, y := panel_type.trimming,
          width := item.height, height := item.width, rotated := true }
        (calculate_placement_score req area.x area.y item.height item.width area layout)
    else best

/-- Panel orientations tried for a type: both unless the type is square within
`f64::EPSILON` (`mod.rs::place_on_new_panel`, the `orientations` vector). -/
def orientationsOf (panel_type : PanelType) : List (ℚ × ℚ) :=
  if qabs (panel_type.width - panel_type.height) < F64_EPS then
    [(panel_type.width, panel_type.height)]
  else
    [(panel_type.width, panel_type.height), (panel_type.height, panel_type.width)]

/-- Candidate state of `place_on_new_panel`: panel type, orientation,
placement, score, capacity. -/
def NewPanelCand : Type := PanelType × ℚ × ℚ × Placement × ℚ × Nat

/-- Selection step of `place_on_new_panel`: prefer higher capacity, then lower
score, first-wins on ties. -/
def considerNewPanel (best : Option NewPanelCand) (cand : NewPanelCand) :
    Option NewPanelCand :=
  match best with
  | none => some cand
  | some b =>
    if cand.2.2.2.2.2 > b.2.2.2.2.2
        ∨ (cand.2.2.2.2.2 = b.2.2.2.2.2 ∧ cand.2.2.2.2.1 < b.2.2.2.2.1) then
      some cand
    else some b

/-- The `best_candidate` accumulation loop of `mod.rs::place_on_new_panel`. -/
def newPanelFold (req : OptimizationRequest) (item : Item) : Option NewPanelCand :=
  req.panel_types.foldl
    (fun best panel_type =>
      (orientationsOf panel_type).foldl
        (fun best pw_ph =>
          match best_new_panel_placement req item panel_type pw_ph.1 pw_ph.2 with
          | none => best
          | some (placement, score) =>
            let capacity := estimate_panel_capacity req item pw_ph.1 pw_ph.2
              panel_type.trimming
            considerNewPanel best (panel_type, pw_ph.1, pw_ph.2, placement, score, capacity))
        best)
    none

/-- Opens a new panel for an item; errors with `CannotFitAll` when no panel
type can host the item in any considered orientation
(`mod.rs::place_on_new_panel`). -/
def place_on_new_panel (req : OptimizationRequest) (item : Item) :
    Except OptimizerError (Option (PanelType × ℚ × ℚ × Placement)) :=
  match newPanelFold req item with
  | some (panel_type, pw, ph, placement, _, _) => .ok (some (panel_type, pw, ph, placement))
  | none => .error .cannotFitAll

/-! ## BFD packer (`mod.rs::best_fit_decreasing_optimize`) -/

/-- Appends a placement to the layout at position `idx`
(the `layouts[idx].placements.push(placement)` of `mod.rs`). -/
def pushPlacementAt : List PanelLayout → Nat → Placement → List PanelLayout
  | [], _, _ => []
  | l :: rest, 0, pl => { l with placements := l.placements ++ [pl] } :: rest
  | l :: rest, n + 1, pl => l :: pushPlacementAt rest n pl

/-- Scans the open layouts in order for the best-scoring placement of an item,
applying the `min_initial_usage` later-panel penalty
(the existing-panel loop of `mod.rs::best_fit_decreasing_optimize`, also used
verbatim by `try_reduce_panels`). -/
def bestExistingAux (req : OptimizationRequest) (item : Item) :
    List PanelLayout → Nat → Option (Nat × Placement × ℚ) →
    Option (Nat × Placement × ℚ)
  | [], _, best => best
  | layout :: rest, idx, best =>
    let best :=
      match find_best_placement req item layout with
      | none => best
      | some (placement, score) =>
        let adjusted_score :=
          if req.min_initial_usage then score + (idx : ℚ) * 1000000 else score
        match best with
        | none => some (idx, placement, adjusted_score)
        | some (bi, bp, bs) =>
          if adjusted_score < bs then some (idx, placement, adjusted_score)
          else some (bi, bp, bs)
    bestExistingAux req item rest (idx + 1) best

/-- One BFD step per item followed by recursion over the remaining items
(the loop body of `mod.rs::best_fit_decreasing_optimize`). -/
def bfdAux (req : OptimizationRequest) :
    List Item → List PanelLayout → Except OptimizerError (List PanelLayout)
  | [], layouts => .ok layouts
  | item :: rest, layouts =>
    match bestExistingAux req item layouts 0 none with
    | some (idx, placement, _) => bfdAux req rest (pushPlacementAt layouts idx placement)
    | none =>
      match place_on_new_panel req item with
      | .error e => .error e
      | .ok none => bfdAux req rest layouts
      | .ok (some (panel_type, panel_width, panel_height, placement)) =>
        let panel_number :=
          (layouts.filter (fun l => l.panel_type_id = panel_type.id)).length + 1
        bfdAux req rest (layouts ++
          [{ panel_type_id := panel_type.id, panel_number := panel_number,
             width := panel_width, height := panel_height,
             trimming := panel_type.trimming, placements := [placement],
             unused_areas := [] }])

/-- Best-fit-decreasing packing of a sorted item list
(`mod.rs::best_fit_decreasing_optimize`). -/
def best_fit_decreasing_optimize (req : OptimizationRequest) (items : List Item) :
    Except OptimizerError (List PanelLayout) :=
  bfdAux req items []

/-! ## Item expansion and sort strategies (`mod.rs::expand_items`,
`mod.rs::generate_sort_strategies`) -/

/-- Physical copies of one request item: `quantity` copies, ids suffixed
`_1`, `_2`, … when the quantity exceeds one (`mod.rs::expand_items`). -/
def expandOne (item : Item) : List Item :=
  (List.range item.quantity).map (fun i =>
    { id := if item.quantity > 1 then item.id ++ "_" ++ toString (i + 1) else item.id,
      width := item.width, height := item.height, quantity := 1,
      can_rotate := item.can_rotate })

/-- Expands every request item by its quantity (`mod.rs::expand_items`). -/
def expand_items (req : OptimizationRequest) : List Item :=
  req.items.flatMap expandOne

/-- Swaps width and height of rotatable items so the height is the longer
side (the `normalize_tall` closure of `mod.rs::generate_sort_strategies`). -/
def normalize_tall (items : List Item) : List Item :=
  items.map (fun item =>
    if item.can_rotate ∧ item.width > item.height then
      { id := item.id, width := item.height, height := item.width,
        quantity := item.quantity, can_rotate := item.can_rotate }
    else item)

/-- Swaps width and height of rotatable items so the width is the longer side
(the `normalize_wide` closure of `mod.rs::generate_sort_strategies`). -/
def normalize_wide (items : List Item) : List Item :=
  items.map (fun item =>
    if item.can_rotate ∧ item.height > item.width then
      { id := item.id, width := item.height, height := item.width,
        quantity := item.quantity, can_rotate := item.can_rotate }
    else item)

/-- Comparator: area descending. -/
def cmpAreaDesc (a b : Item) : Ordering :=
  ordQ (b.width * b.height) (a.width * a.height)

/-- Comparator: height descending, then width descending. -/
def cmpHWDesc (a b : Item) : Ordering :=
  (ordQ b.height a.height).then (ordQ b.width a.width)

/-- Comparator: width descending, then height descending. -/
def cmpWHDesc (a b : Item) : Ordering :=
  (ordQ b.width a.width).then (ordQ b.height a.height)

/-- The six item orderings explored by the strategy driver
(`mod.rs::generate_sort_strategies`). -/
def generate_sort_strategies (items : List Item) : List (List Item) :=
  [sortBy cmpAreaDesc items,
   sortBy cmpHWDesc items,
   sortBy cmpWHDesc items,
   sortBy cmpHWDesc (normalize_tall items),
   sortBy cmpWHDesc (normalize_wide items),
   sortBy cmpAreaDesc (normalize_tall items)]

/-! ## Panel-reduction pass (`mod.rs::try_reduce_panels`,
`mod.rs::renumber_panels`) -/

/-- Total placed area of a layout (used to pick the least-used panel). -/
def usedAreaOf (l : PanelLayout) : ℚ :=
  l.placements.foldl (fun acc p => acc + p.width * p.height) 0

/-- Index and value of the layout with the smallest placed area, first-wins on
ties (the `min_by` of `mod.rs::try_reduce_panels`). -/
def minUsedAux : List PanelLayout → Nat → Option (Nat × PanelLayout) →
    Option (Nat × PanelLayout)
  | [], _, best => best
  | l :: rest, idx, best =>
    let best :=
      match best with
      | none => some (idx, l)
      | some (bi, bl) => if usedAreaOf l < usedAreaOf bl then some (idx, l) else some (bi, bl)
    minUsedAux rest (idx + 1) best

/-- First layout of minimal used area, with its index. -/
def minUsed (layouts : List PanelLayout) : Option (Nat × PanelLayout) :=
  minUsedAux layouts 0 none

/-- Reconstructs an `Item` from a placement of the evacuated panel, un-rotating
the dimensions and recovering `can_rotate` from the expanded items
(`mod.rs::try_reduce_panels`). -/
def reconstructItem (expanded_items : List Item) (p : Placement) : Item :=
  let dims := if p.rotated then (p.height, p.width) else (p.width, p.height)
  { id := p.item_id, width := dims.1, height := dims.2, quantity := 1,
    can_rotate := ((expanded_items.find? (fun i => i.id = p.item_id)).map
      (fun i => i.can_rotate)).getD true }

/-- Places each reconstructed item into the best remaining layout, failing when
one cannot be placed (the redistribution loop of `mod.rs::try_reduce_panels`). -/
def redistribute (req : OptimizationRequest) :
    List Item → List PanelLayout → Option (List PanelLayout)
  | [], layouts => some layouts
  | item :: rest, layouts =>
    match bestExistingAux req item layouts 0 none with
    | some (idx, placement, _) => redistribute req rest (pushPlacementAt layouts idx placement)
    | none => none

/-- Looks up and increments the per-type counter, appending a fresh entry when
the type is new (the `type_counts` bookkeeping of `mod.rs::renumber_panels`). -/
def bumpCount : List (String × Nat) → String → Nat × List (String × Nat)
  | [], id => (1, [(id, 1)])
  | (k, v) :: rest, id =>
    if k = id then (v + 1, (k, v + 1) :: rest)
    else
      let r := bumpCount rest id
      (r.1, (k, v) :: r.2)

/-- Reassigns sequential panel numbers per panel type
(`mod.rs::renumber_panels`). -/
def renumberAux : List PanelLayout → List (String × Nat) → List PanelLayout
  | [], _ => []
  | l :: rest, counts =>
    let r := bumpCount counts l.panel_type_id
    { l with panel_number := r.1 } :: renumberAux rest r.2

/-- Renumbers all layouts (`mod.rs::renumber_panels`). -/
def renumber_panels (layouts : List PanelLayout) : List PanelLayout :=
  renumberAux layouts []

/-- Body of the elimination loop of `mod.rs::try_reduce_panels`. Each
successful iteration removes one panel, so a fuel of `layouts.length` is
enough for the Rust `loop` to reach its exit condition. -/
def reduceLoop (req : OptimizationRequest) (expanded_items : List Item) :
    Nat → List PanelLayout → List PanelLayout
  | 0, current => current
  | fuel + 1, current =>
    if current.length ≤ 1 then current
    else
      match minUsed current with
      | none => current
      | some (min_idx, target_panel) =>
        let items_to_place :=
          sortBy cmpAreaDesc (target_panel.placements.map (reconstructItem expanded_items))
        let test := current.eraseIdx min_idx
        match redistribute req items_to_place test with
        | some new_layouts => reduceLoop req expanded_items fuel new_layouts
        | none => current

/-- Panel-reduction pass (`mod.rs::try_reduce_panels`). -/
def try_reduce_panels (req : OptimizationRequest) (layouts : List PanelLayout)
    (expanded_items : List Item) : List PanelLayout :=
  if layouts.length ≤ 1 then layouts
  else renumber_panels (reduceLoop req expanded_items layouts.length layouts)

/-! ## Output remnant extraction (`layout.rs::merge_unused_areas`,
`layout.rs::compute_output_unused_areas`) -/

/-- Vertical-merge eligibility: same x and width, vertically adjacent within
tolerance 1.0 (`layout.rs::merge_unused_areas`, phase 1). -/
def canMergeV (current other : UnusedArea) : Bool :=
  decide (qabs (current.x - other.x) < 1) &&
  decide (qabs (current.width - other.width) < 1) &&
  (decide (qabs (current.y - (other.y + other.height)) < 1) ||
   decide (qabs (other.y - (current.y + current.height)) < 1))

/-- Union rectangle of a vertical merge. -/
def mergeV (current other : UnusedArea) : UnusedArea :=
  { x := current.x, y := qmin current.y other.y,
    width := current.width, height := current.height + other.height }

/-- Horizontal-merge eligibility: same y and height, horizontally adjacent
within tolerance 1.0 (`layout.rs::merge_unused_areas`, phase 1). -/
def canMergeH (current other : UnusedArea) : Bool :=
  decide (qabs (current.y - other.y) < 1) &&
  decide (qabs (current.height - other.height) < 1) &&
  (decide (qabs (current.x - (other.x + other.width)) < 1) ||
   decide (qabs (other.x - (current.x + current.width)) < 1))

/-- Union rectangle of a horizontal merge. -/
def mergeH (current other : UnusedArea) : UnusedArea :=
  { x := qmin current.x other.x, y := current.y,
    width := current.width + other.width, height := current.height }

/-- Inner merge scan of `layout.rs::merge_unused_areas`: walks the later
rectangles in order, absorbing each mergeable one into `current` (vertical
checked before horizontal) and returning the grown rectangle together with
the rectangles left unmerged, in order. -/
def mergeHead (current : UnusedArea) : List UnusedArea → UnusedArea × List UnusedArea
  | [] => (current, [])
  | a :: rest =>
    if canMergeV current a then mergeHead (mergeV current a) rest
    else if canMergeH current a then mergeHead (mergeH current a) rest
    else
      let r := mergeHead current rest
      (r.1, a :: r.2)

/-- One full merge pass (the body of the phase-1 `loop`). `mergeHead` never
lengthens its list, so a fuel equal to the list length makes the fuel case
unreachable; fuel only serves as a structural termination measure. -/
def mergePassAux : Nat → List UnusedArea → List UnusedArea
  | _, [] => []
  | 0, l => l
  | fuel + 1, a :: rest =>
    let r := mergeHead a rest
    r.1 :: mergePassAux fuel r.2

/-- One merge pass over the working set. -/
def mergePass (l : List UnusedArea) : List UnusedArea :=
  mergePassAux l.length l

/-- Phase-1 fixpoint loop of `layout.rs::merge_unused_areas`: repeat the merge
pass until no pair merges (a pass merged something exactly when its output is
shorter than its input). -/
def mergeLoop (l : List UnusedArea) : List UnusedArea :=
  let l2 := mergePass l
  if h : l2.length < l.length then mergeLoop l2 else l2
termination_by l.length
decreasing_by exact h

unseal mergeLoop

/-- Phase 2 of `layout.rs::merge_unused_areas`: sort by area descending, drop
rectangles under 10 in either dimension, and keep only rectangles not already
contained (tolerance 1.0) in an accepted one. -/
def mergePhase2 (working : List UnusedArea) : List UnusedArea :=
  let sorted := sortBy (fun a b : UnusedArea =>
    ordQ (b.width * b.height) (a.width * a.height)) working
  sorted.foldl
    (fun result area =>
      if area.width < 10 ∨ area.height < 10 then result
      else if result.any (fun existing => existing.contains area 1) then result
      else result ++ [area])
    []

/-- Merges adjacent free rectangles into output remnants
(`layout.rs::merge_unused_areas`). -/
def merge_unused_areas (areas : List UnusedArea) : List UnusedArea :=
  if areas = [] then [] else mergePhase2 (mergeLoop areas)

/-- Final per-panel unused areas (`layout.rs::compute_output_unused_areas`). -/
def compute_output_unused_areas (req : OptimizationRequest)
    (layout : PanelLayout) : List UnusedAreaOut :=
  (merge_unused_areas (find_unused_areas req layout)).map
    (fun a => { x := a.x, y := a.y, width := a.width, height := a.height })

/-! ## Summary (`summary.rs`) -/

/-- Overlap test on output areas with tolerance 0.5
(`summary.rs::areas_overlap`). -/
def areas_overlap (a b : UnusedAreaOut) : Bool :=
  decide (a.x < b.x + b.width - (1/2 : ℚ)) &&
  decide (a.x + a.width > b.x + (1/2 : ℚ)) &&
  decide (a.y < b.y + b.height - (1/2 : ℚ)) &&
  decide (a.y + a.height > b.y + (1/2 : ℚ))

/-- Greedy non-overlapping selection of reusable remnant area on one layout
(the per-layout loop of `summary.rs::calculate_summary`). -/
def reusableOnLayout (req : OptimizationRequest) (min_size : ℚ)
    (layout : PanelLayout) : ℚ :=
  let unused_areas := sortBy (fun a b : UnusedAreaOut =>
    ordQ (b.width * b.height) (a.width * a.height))
    (compute_output_unused_areas req layout)
  (unused_areas.foldl
    (fun acc area =>
      let area_size := area.width * area.height
      if area_size < min_size then acc
      else if acc.2.any (fun existing => areas_overlap existing area) then acc
      else (acc.1 + area_size, acc.2 ++ [area]))
    ((0 : ℚ), ([] : List UnusedAreaOut))).1

/-- Aggregated statistics (`summary.rs::calculate_summary`). -/
def calculate_summary (req : OptimizationRequest) (layouts : List PanelLayout) :
    Summary :=
  let total_panels := layouts.length
  let total_area := layouts.foldl (fun acc l => acc + l.width * l.height) 0
  let used_area := layouts.foldl
    (fun acc l => l.placements.foldl (fun acc p => acc + p.width * p.height) acc) 0
  let waste_area := total_area - used_area
  let waste_percentage := if total_area > 0 then waste_area / total_area * 100 else 0
  match req.min_reusable_remnant_size with
  | some min_size =>
    let reusable_area := layouts.foldl
      (fun acc layout => acc + reusableOnLayout req min_size layout) 0
    let reusable_area := qmin reusable_area waste_area
    let actual_waste := waste_area - reusable_area
    let actual_waste_pct := if total_area > 0 then actual_waste / total_area * 100 else 0
    { total_panels := total_panels, total_area := total_area, used_area := used_area,
      waste_area := waste_area, waste_percentage := waste_percentage,
      reusable_remnant_area := some reusable_area,
      actual_waste_area := some actual_waste,
      actual_waste_percentage := some actual_waste_pct }
  | none =>
    { total_panels := total_panels, total_area := total_area, used_area := used_area,
      waste_area := waste_area, waste_percentage := waste_percentage,
      reusable_remnant_area := none, actual_waste_area := none,
      actual_waste_percentage := none }

/-- Panel counts per type (`summary.rs::count_panels`), as an association list
in first-encounter order. -/
def count_panels (layouts : List PanelLayout) : List (String × Nat) :=
  layouts.foldl (fun acc l => (bumpCount acc l.panel_type_id).2) []

/-! ## Optional-item backfill (`optional.rs::try_add_optional_items`) -/

/-- Effective waste percentage: actual percentage when remnant accounting is
on, else the plain percentage (`optional.rs`). -/
def effectiveWastePct (s : Summary) : ℚ :=
  s.actual_waste_percentage.getD s.waste_percentage

/-- Effective waste area: actual area when remnant accounting is on, else the
plain waste area (`optional.rs`). -/
def effectiveWasteArea (s : Summary) : ℚ :=
  s.actual_waste_area.getD s.waste_area

/-- Converts an `OptionalItem` to an `Item` (`optional.rs::optional_to_item`). -/
def optional_to_item (opt : OptionalItem) : Item :=
  { id := opt.id, width := opt.width, height := opt.height, quantity := 1,
    can_rotate := opt.can_rotate }

/-- The request's optional-item pool, sorted by priority descending then area
descending (`optional.rs::try_add_optional_items`). -/
def optional_pool (req : OptimizationRequest) : List (String × OptionalItem) :=
  sortBy
    (fun a b : String × OptionalItem =>
      (ordI b.2.priority a.2.priority).then
        (ordQ (b.2.width * b.2.height) (a.2.width * a.2.height)))
    (req.panel_types.flatMap (fun panel_type =>
      panel_type.optional_items.map (fun item => (panel_type.id, item))))

/-- Inner layout scan for one pool entry: tries each layout of the matching
panel type in order and commits the first placement that strictly lowers the
effective waste (the `layout_idx` loop of `optional.rs`). -/
def optionalEntryScan (req : OptimizationRequest) (panel_count : Nat)
    (full : List PanelLayout) (best_waste : ℚ) (entry : String × OptionalItem) :
    List PanelLayout → Nat → Option (List PanelLayout)
  | [], _ => none
  | layout :: rest, idx =>
    if layout.panel_type_id = entry.1 then
      match try_place_item req (optional_to_item entry.2) layout with
      | some placement =>
        let test_layouts := pushPlacementAt full idx placement
        if test_layouts.length > panel_count then
          optionalEntryScan req panel_count full best_waste entry rest (idx + 1)
        else
          let test_waste := effectiveWasteArea (calculate_summary req test_layouts)
          if test_waste < best_waste then some test_layouts
          else optionalEntryScan req panel_count full best_waste entry rest (idx + 1)
      | none => optionalEntryScan req panel_count full best_waste entry rest (idx + 1)
    else optionalEntryScan req panel_count full best_waste entry rest (idx + 1)

/-- One pass of the progress loop: the first pool entry and layout that commit
(the `for` loops inside the `while made_progress` of `optional.rs`). Returns
the updated layouts and the id recorded in `optional_items_used`. -/
def optionalPass (req : OptimizationRequest) (panel_count : Nat)
    (pool : List (String × OptionalItem)) (layouts : List PanelLayout) :
    Option (List PanelLayout × String) :=
  let best_waste := effectiveWasteArea (calculate_summary req layouts)
  pool.foldl
    (fun found entry =>
      match found with
      | some r => some r
      | none =>
        match optionalEntryScan req panel_count layouts best_waste entry layouts 0 with
        | some new_layouts => some (new_layouts, entry.2.id)
        | none => none)
    none

/-- The `while made_progress` loop of `optional.rs`, fuel-indexed: `none`
means the fuel ran out while passes were still committing placements (the
Rust loop would still be running); `some` is the Rust loop's exit state. -/
def optionalLoop (req : OptimizationRequest) (panel_count : Nat)
    (pool : List (String × OptionalItem)) :
    Nat → List PanelLayout → List String → Option (List PanelLayout × List String)
  | 0, _, _ => none
  | fuel + 1, layouts, used =>
    match optionalPass req panel_count pool layouts with
    | none => some (layouts, used)
    | some (new_layouts, id) => optionalLoop req panel_count pool fuel new_layouts (used ++ [id])

/-- Optional-item backfill (`optional.rs::try_add_optional_items`),
fuel-indexed for the progress loop. -/
def try_add_optional_items (req : OptimizationRequest) (fuel : Nat)
    (layouts : List PanelLayout) : Option (List PanelLayout × List String) :=
  let initial_summary := calculate_summary req layouts
  if effectiveWastePct initial_summary ≤ 8 then some (layouts, [])
  else
    let pool := optional_pool req
    if pool = [] then some (layouts, [])
    else optionalLoop req layouts.length pool fuel layouts []

/-! ## Validation and the driver (`mod.rs::new`, `mod.rs::optimize`) -/

/-- Per-panel validation walk of `Optimizer::new`. -/
def validatePanels : List PanelType → Option OptimizerError
  | [] => none
  | panel :: rest =>
    if panel.trimming < 0 then
      some (.invalidInput ("Panel " ++ panel.id ++ " has negative trimming"))
    else if panel.width - panel.trimming * 2 ≤ 0 ∨ panel.height - panel.trimming * 2 ≤ 0 then
      some (.invalidInput ("Panel " ++ panel.id ++ " becomes unusable after applying trimming"))
    else validatePanels rest

/-- Request validation (`mod.rs::Optimizer::new`); `none` means the request is
accepted. Error messages are abbreviated but one-to-one with the source. -/
def validate (req : OptimizationRequest) : Option OptimizerError :=
  if req.panel_types = [] then
    some (.invalidInput "At least one panel type must be provided")
  else if req.items = [] then
    some (.invalidInput "At least one item must be provided")
  else validatePanels req.panel_types

/-- Strategy fold of `mod.rs::optimize`: keeps the reduced result with the
fewest panels, ties broken by strictly lower waste, skipping failed
strategies. -/
def bestStrategyResult (req : OptimizationRequest) (expanded_items : List Item)
    (strategies : List (List Item)) : Option (List PanelLayout × Nat × ℚ) :=
  strategies.foldl
    (fun best sorted_items =>
      match best_fit_decreasing_optimize req sorted_items with
      | .error _ => best
      | .ok layouts =>
        let layouts := try_reduce_panels req layouts expanded_items
        let panel_count := layouts.length
        let waste := (calculate_summary req layouts).waste_area
        match best with
        | none => some (layouts, panel_count, waste)
        | some (bl, bpc, bw) =>
          if panel_count < bpc ∨ (panel_count = bpc ∧ waste < bw) then
            some (layouts, panel_count, waste)
          else some (bl, bpc, bw))
    none

/-- Full optimization flow (`mod.rs::optimize`), fuel-indexed for the optional
backfill loop: `none` means the backfill loop exceeded the fuel, otherwise the
Rust return value (`Ok` result or `Err`). -/
def optimize (req : OptimizationRequest) (fuel : Nat) :
    Option (Except OptimizerError OptimizationResult) :=
  let expanded_items := expand_items req
  let strategies := generate_sort_strategies expanded_items
  match bestStrategyResult req expanded_items strategies with
  | none => some (.error .cannotFitAll)
  | some (layouts, _, _) =>
    match try_add_optional_items req fuel layouts with
    | none => none
    | some (final_layouts, optional_items_used) =>
      let final_layouts := final_layouts.map
        (fun l => { l with unused_areas := compute_output_unused_areas req l })
      some (.ok
        { panels_required := count_panels final_layouts,
          layouts := final_layouts,
          summary := calculate_summary req final_layouts,
          optional_items_used := optional_items_used })

/-! ## Predicates and auxiliary definitions used by the theorems -/

/-- Rectangle containment (no tolerance): `inner` lies inside `outer`. -/
def Inside (inner outer : UnusedArea) : Prop :=
  outer.x ≤ inner.x ∧ outer.y ≤ inner.y ∧
  inner.x + inner.width ≤ outer.x + outer.width ∧
  inner.y + inner.height ≤ outer.y + outer.height

/-- The usable rectangle of a layout: the panel minus the trimming border. -/
def usableRect (layout : PanelLayout) : UnusedArea :=
  { x := layout.trimming, y := layout.trimming,
    width := layout.width - layout.trimming * 2,
    height := layout.height - layout.trimming * 2 }

/-- The unexpanded rectangle of a placement. -/
def origRect (p : Placement) : UnusedArea :=
  { x := p.x, y := p.y, width := p.width, height := p.height }

/-- Membership of a point in a closed rectangle. -/
def InRect (px py : ℚ) (r : UnusedArea) : Prop :=
  r.x ≤ px ∧ px ≤ r.x + r.width ∧ r.y ≤ py ∧ py ≤ r.y + r.height

instance (px py : ℚ) (r : UnusedArea) : Decidable (InRect px py r) := by
  unfold InRect; infer_instance

instance (inner outer : UnusedArea) : Decidable (Inside inner outer) := by
  unfold Inside; infer_instance

/-- Every placement lies within the usable area of its layout (spec §3
invariant 1 / §8 invariant 3). -/
def PlacementsWithinUsable (l : PanelLayout) : Prop :=
  ∀ p ∈ l.placements, l.trimming ≤ p.x ∧ l.trimming ≤ p.y ∧
    p.x + p.width ≤ l.width - l.trimming ∧ p.y + p.height ≤ l.height - l.trimming

/-- Chronological separation: the kerf-expanded rectangle of every placement is
disjoint from the unexpanded rectangle of every placement committed after it. -/
def SeqSep (cut_width : ℚ) (l : PanelLayout) : Prop :=
  l.placements.Pairwise
    (fun p q => (placedRect cut_width p).overlaps (origRect q) = false)

/-- Combined per-layout packing invariant. -/
def GoodLayout (cut_width : ℚ) (l : PanelLayout) : Prop :=
  PlacementsWithinUsable l ∧ SeqSep cut_width l

/-- A layout's panel data comes from the request: its trimming and dimensions
are those of a request panel type in a considered orientation. -/
def LayoutFromReq (req : OptimizationRequest) (l : PanelLayout) : Prop :=
  ∃ pt ∈ req.panel_types, l.trimming = pt.trimming ∧
    (l.width, l.height) ∈ orientationsOf pt

/-- Combined invariant over a list of layouts, maintained by every pass of the
pipeline. -/
def GoodState (req : OptimizationRequest) (ls : List PanelLayout) : Prop :=
  ∀ l ∈ ls, GoodLayout req.cut_width l ∧ LayoutFromReq req l

/-- Item ids of one layout's placements, in order. -/
def layoutIds (l : PanelLayout) : List String :=
  l.placements.map (fun p => p.item_id)

/-- Item ids of all placements across a layout list. -/
def allIds (ls : List PanelLayout) : List String :=
  ls.flatMap layoutIds

/-- An item fits usable dimensions `(uw, uh)` in its given orientation or,
when rotatable, rotated. -/
def FitsDims (item : Item) (uw uh : ℚ) : Prop :=
  (item.width ≤ uw ∧ item.height ≤ uh) ∨
  (item.can_rotate = true ∧ item.height ≤ uw ∧ item.width ≤ uh)

instance (item : Item) (uw uh : ℚ) : Decidable (FitsDims item uw uh) := by
  unfold FitsDims; infer_instance

/-- An item fits the usable area of some panel type in some orientation the
code actually considers (`orientationsOf`). -/
def FitsConsidered (req : OptimizationRequest) (item : Item) : Prop :=
  ∃ pt ∈ req.panel_types, ∃ o ∈ orientationsOf pt,
    FitsDims item (o.1 - pt.trimming * 2) (o.2 - pt.trimming * 2)

/-- Shape of every placement produced by the candidate generators: it sits at
the corner of a free rectangle, fits inside it, and carries the item's id and
dimensions (possibly swapped when rotatable). -/
def PlacedFromArea (item : Item) (area : UnusedArea) (pl : Placement) : Prop :=
  pl.item_id = item.id ∧ pl.x = area.x ∧ pl.y = area.y ∧
  pl.width ≤ area.width ∧ pl.height ≤ area.height ∧
  ((pl.width = item.width ∧ pl.height = item.height) ∨
   (item.can_rotate = true ∧ pl.width = item.height ∧ pl.height = item.width))

/-- Shape of every placement produced by `best_new_panel_placement`: at the
trimming corner, fitting the usable area of the panel orientation. -/
def NewPanelPlacement (item : Item) (panel_type : PanelType) (pw ph : ℚ)
    (pl : Placement) : Prop :=
  pl.item_id = item.id ∧ pl.x = panel_type.trimming ∧ pl.y = panel_type.trimming ∧
  pl.width ≤ pw - panel_type.trimming * 2 ∧ pl.height ≤ ph - panel_type.trimming * 2 ∧
  ((pl.width = item.width ∧ pl.height = item.height) ∨
   (item.can_rotate = true ∧ pl.width = item.height ∧ pl.height = item.width))

/-- The claim's reading of `CannotFitAll`: some expanded item exceeds every
panel type's usable area in both panel orientations (spec §7), with no
square-panel exception. -/
def SpecCannotFit (req : OptimizationRequest) : Prop :=
  ∃ item ∈ expand_items req, ∀ pt ∈ req.panel_types,
    ¬ FitsDims item (pt.width - pt.trimming * 2) (pt.height - pt.trimming * 2) ∧
    ¬ FitsDims item (pt.height - pt.trimming * 2) (pt.width - pt.trimming * 2)

instance (req : OptimizationRequest) : Decidable (SpecCannotFit req) := by
  unfold SpecCannotFit; infer_instance

/-- Splitting pass without the containment prune, used to state the amended
free-region cover property: the raw residual pieces around a placement. -/
def split_no_prune (free_rects : List UnusedArea) (placed : UnusedArea) :
    List UnusedArea :=
  free_rects.flatMap (fun rect =>
    if rect.overlaps placed then split_one rect placed else [rect])

/-- Free rectangles of a layout before pruning and the small-rectangle filter:
the iterated raw splits of the usable area around every kerf-expanded
placement. -/
def find_unused_areas_no_prune (req : OptimizationRequest)
    (layout : PanelLayout) : List UnusedArea :=
  let usable_width := layout.width - layout.trimming * 2
  let usable_height := layout.height - layout.trimming * 2
  if usable_width ≤ 0 ∨ usable_height ≤ 0 then []
  else
    layout.placements.foldl
      (fun rects p => split_no_prune rects (placedRect req.cut_width p))
      [{ x := layout.trimming, y := layout.trimming,
         width := usable_width, height := usable_height }]

/-- Scoring mode, derived from the request toggles with the precedence of
`calculate_placement_score`. -/
inductive ScoreMode where
  | minInitial : ScoreMode
  | remnant : ScoreMode
  | default : ScoreMode
deriving DecidableEq, Repr

/-- The mode selected by a request. -/
def modeOf (req : OptimizationRequest) : ScoreMode :=
  if req.min_initial_usage then .minInitial
  else if req.optimize_for_reusable_remnants then .remnant
  else .default

/-- Modelled from the spec (§4.2): the scoring formula exactly as the spec
table states it, as a function of the candidate, the free rectangle, the kerf
and the contact score. -/
def spec_score (mode : ScoreMode) (x y w h aw ah kerf contact : ℚ) : ℚ :=
  let width_leftover := aw - w - kerf
  let height_leftover := ah - h - kerf
  let fit_ratio := qmax width_leftover 0 * qmax height_leftover 0 / qmax (aw * ah) 1
  let sliver :=
    (if width_leftover > 0 ∧ width_leftover < 50 then (50 - width_leftover) * 10 else 0) +
    (if height_leftover > 0 ∧ height_leftover < 50 then (50 - height_leftover) * 10 else 0)
  match mode with
  | .default => (y * 10000 + x) - 200 * contact + sliver
  | .remnant => (y * 10000 + x) - 50 * contact + 2 * sliver
  | .minInitial =>
    let height_fit_bonus : ℚ :=
      if qabs height_leftover < 10 then -50000
      else if height_leftover > 0 ∧ height_leftover < 100 then -20000
      else 0
    let width_fit_bonus : ℚ :=
      if qabs width_leftover < 10 then -30000
      else if width_leftover > 0 ∧ width_leftover < 100 then -10000
      else 0
    (y * 100 + (1/10) * x) + 10000 * fit_ratio - 500 * contact + sliver
      + height_fit_bonus + width_fit_bonus

/-! ## Concrete instances used by witnesses and counterexamples -/

/-- Penetration depth of the overlap of a rectangle and a placement's
unexpanded rectangle: the smaller side of the intersection box (positive
exactly when they overlap). -/
def overlapDepth (a : UnusedArea) (p : Placement) : ℚ :=
  qmin (qmin (a.x + a.width) (p.x + p.width) - qmax a.x p.x)
       (qmin (a.y + a.height) (p.y + p.height) - qmax a.y p.y)

/-- Three fixed items on one 200×200 panel with kerf 3: the packer places the
third item flush against the left edge of the second, so the third item's
kerf-expanded rectangle penetrates the second by the full kerf. -/
def exMixedReq : OptimizationRequest :=
  { cut_width := 3,
    panel_types := [{ id := "p", width := 200, height := 200, trimming := 0,
                      optional_items := [] }],
    items :=
      [{ id := "X", width := 150, height := 40, quantity := 1, can_rotate := false },
       { id := "Y", width := 47, height := 100, quantity := 1, can_rotate := false },
       { id := "Z", width := 153, height := 30, quantity := 1, can_rotate := false }],
    min_initial_usage := false, min_reusable_remnant_size := none,
    optimize_for_reusable_remnants := false }

/-- Request for the free-rectangle prune counterexample (kerf 0). -/
def exPruneReq : OptimizationRequest :=
  { cut_width := 0,
    panel_types := [{ id := "p", width := 100, height := 100, trimming := 0,
                      optional_items := [] }],
    items := [{ id := "a", width := 1, height := 1, quantity := 1, can_rotate := false }],
    min_initial_usage := false, min_reusable_remnant_size := none,
    optimize_for_reusable_remnants := false }

/-- A layout with one thin placement near the bottom edge: the containment
prune discards the whole left free column. -/
def exPruneLayout : PanelLayout :=
  { panel_type_id := "p", panel_number := 1, width := 100, height := 100,
    trimming := 0,
    placements := [{ item_id := "a", x := 60, y := 1/5, width := 40,
                     height := 1/5, rotated := false }],
    unused_areas := [] }

/-- A panel whose width and height differ by less than `f64::EPSILON`, so
`place_on_new_panel` treats it as square and skips the swapped orientation;
the single item fits only in that skipped orientation. -/
def exSquareReq : OptimizationRequest :=
  { cut_width := 0,
    panel_types := [{ id := "p", width := 1/2^20, height := 1/2^20 + 1/2^53,
                      trimming := 0, optional_items := [] }],
    items := [{ id := "a", width := 1/2^20 + 1/2^53, height := 1/2^20,
                quantity := 1, can_rotate := false }],
    min_initial_usage := false, min_reusable_remnant_size := none,
    optimize_for_reusable_remnants := false }

/-- A single item too large for the only panel type in any orientation. -/
def exBigItemReq : OptimizationRequest :=
  { cut_width := 3,
    panel_types := [{ id := "p", width := 200, height := 200, trimming := 0,
                      optional_items := [] }],
    items := [{ id := "big", width := 300, height := 300, quantity := 1,
                can_rotate := true }],
    min_initial_usage := false, min_reusable_remnant_size := none,
    optimize_for_reusable_remnants := false }

/-- One item exactly filling the usable area of the only panel type, which has
nonzero trimming: the result wastes the trimming border, not zero. -/
def exTrimReq : OptimizationRequest :=
  { cut_width := 3,
    panel_types := [{ id := "p", width := 100, height := 100, trimming := 10,
                      optional_items := [] }],
    items := [{ id := "a", width := 80, height := 80, quantity := 1,
                can_rotate := false }],
    min_initial_usage := false, min_reusable_remnant_size := none,
    optimize_for_reusable_remnants := false }

/-- One item exactly filling the usable area of a single panel type. -/
def exExactReq : OptimizationRequest :=
  { cut_width := 3,
    panel_types := [{ id := "p", width := 100, height := 60, trimming := 5,
                      optional_items := [] }],
    items := [{ id := "a", width := 90, height := 50, quantity := 1,
                can_rotate := true }],
    min_initial_usage := false, min_reusable_remnant_size := none,
    optimize_for_reusable_remnants := false }

/-- A request containing an item with quantity zero next to a normal item. -/
def exQtyZeroReq : OptimizationRequest :=
  { cut_width := 3,
    panel_types := [{ id := "p", width := 200, height := 200, trimming := 0,
                      optional_items := [] }],
    items :=
      [{ id := "ghost", width := 50, height := 50, quantity := 0, can_rotate := false },
       { id := "b", width := 40, height := 40, quantity := 1, can_rotate := false }],
    min_initial_usage := false, min_reusable_remnant_size := none,
    optimize_for_reusable_remnants := false }

deriving instance DecidableEq for Except

/-- An empty result, used only to totalize result extraction. -/
def emptyResult : OptimizationResult :=
  { panels_required := [], layouts := [],
    summary := { total_panels := 0, total_area := 0, used_area := 0, waste_area := 0,
                 waste_percentage := 0, reusable_remnant_area := none,
                 actual_waste_area := none, actual_waste_percentage := none },
    optional_items_used := [] }

/-- Extracts the successful result of an `optimize` run (or the empty result). -/
def resultOrEmpty (o : Option (Except OptimizerError OptimizationResult)) :
    OptimizationResult :=
  match o with
  | some (.ok r) => r
  | _ => emptyResult

/-- The concrete result of optimizing `exMixedReq`. -/
def exMixedRes : OptimizationResult := resultOrEmpty (optimize exMixedReq 9)

/-- The concrete result of optimizing `exTrimReq`. -/
def exTrimRes : OptimizationResult := resultOrEmpty (optimize exTrimReq 9)

/-- A request with one required item and one optional item on its panel type. -/
def exOptReq : OptimizationRequest :=
  { cut_width := 0,
    panel_types := [{ id := "p", width := 100, height := 100, trimming := 0,
                      optional_items := [{ id := "o", width := 40, height := 90,
                                           quantity := 1, can_rotate := false,
                                           priority := 1 }] }],
    items := [{ id := "a", width := 60, height := 60, quantity := 1,
                can_rotate := false }],
    min_initial_usage := false, min_reusable_remnant_size := none,
    optimize_for_reusable_remnants := false }

/-- A packed layout list for `exOptReq` before the optional backfill. -/
def exOptLayouts : List PanelLayout :=
  [{ panel_type_id := "p", panel_number := 1, width := 100, height := 100,
     trimming := 0,
     placements := [{ item_id := "a", x := 0, y := 0, width := 60, height := 60,
                      rotated := false }],
     unused_areas := [] }]

/-- The backfill outcome on `exOptLayouts` (defaulting on failure, for a total
definition). -/
def exOptBack : List PanelLayout × List String :=
  (try_add_optional_items exOptReq 3 exOptLayouts).getD ([], [])

/-- The second placement the packer commits on `exMixedReq`. -/
def exMixedPlacedY : Placement :=
  { item_id := "Y", x := 153, y := 0, width := 47, height := 100, rotated := false }

/-- The third placement the packer commits on `exMixedReq`: flush against the
left edge of the second. -/
def exMixedPlacedZ : Placement :=
  { item_id := "Z", x := 0, y := 43, width := 153, height := 30, rotated := false }

/-- Frame relation of the optional backfill: the layout keeps its identity
fields and its original placements as a prefix, appending only placements
that carry some optional item's id. -/
def BackfillFrame (req : OptimizationRequest) (l l2 : PanelLayout) : Prop :=
  l2.panel_type_id = l.panel_type_id ∧ l2.panel_number = l.panel_number ∧
  l2.width = l.width ∧ l2.height = l.height ∧ l2.trimming = l.trimming ∧
  l2.unused_areas = l.unused_areas ∧
  ∃ t, l2.placements = l.placements ++ t ∧
    ∀ p ∈ t, ∃ pt ∈ req.panel_types, ∃ o ∈ pt.optional_items, p.item_id = o.id

/-! ## Geometry lemmas -/

theorem overlaps_eq_true_iff (a b : UnusedArea) :
    a.overlaps b = true ↔
      (a.x < b.x + b.width ∧ b.x < a.x + a.width ∧
       a.y < b.y + b.height ∧ b.y < a.y + a.height) := by
  simp only [UnusedArea.overlaps, Bool.and_eq_true, decide_eq_true_eq, gt_iff_lt, and_assoc]

theorem overlaps_eq_false_iff (a b : UnusedArea) :
    a.overlaps b = false ↔
      (b.x + b.width ≤ a.x ∨ a.x + a.width ≤ b.x ∨
       b.y + b.height ≤ a.y ∨ a.y + a.height ≤ b.y) := by
  rw [← Bool.not_eq_true, overlaps_eq_true_iff]
  push_neg
  constructor
  · intro h
    by_cases h1 : a.x < b.x + b.width
    · by_cases h2 : b.x < a.x + a.width
      · by_cases h3 : a.y < b.y + b.height
        · exact Or.inr (Or.inr (Or.inr (h h1 h2 h3)))
        · exact Or.inr (Or.inr (Or.inl (not_lt.mp h3)))
      · exact Or.inr (Or.inl (not_lt.mp h2))
    · exact Or.inl (not_lt.mp h1)
  · rintro (h | h | h | h) <;> intro h1 h2 h3 <;> linarith

theorem inside_refl (r : UnusedArea) : Inside r r := by
  refine ⟨le_refl _, le_refl _, le_refl _, le_refl _⟩

theorem inside_trans {a b c : UnusedArea} (h1 : Inside a b) (h2 : Inside b c) :
    Inside a c := by
  obtain ⟨p1, p2, p3, p4⟩ := h1
  obtain ⟨q1, q2, q3, q4⟩ := h2
  exact ⟨by linarith, by linarith, by linarith, by linarith⟩

theorem not_overlaps_of_inside {r' r q : UnusedArea} (hin : Inside r' r)
    (h : r.overlaps q = false) : r'.overlaps q = false := by
  obtain ⟨p1, p2, p3, p4⟩ := hin
  rw [overlaps_eq_false_iff] at h ⊢
  rcases h with h | h | h | h
  · exact Or.inl (by linarith)
  · exact Or.inr (Or.inl (by linarith))
  · exact Or.inr (Or.inr (Or.inl (by linarith)))
  · exact Or.inr (Or.inr (Or.inr (by linarith)))

theorem overlaps_comm (a b : UnusedArea) : a.overlaps b = b.overlaps a := by
  by_cases h : a.overlaps b = true
  · have h2 : b.overlaps a = true := by
      rw [overlaps_eq_true_iff] at h ⊢
      exact ⟨h.2.1, h.1, h.2.2.2, h.2.2.1⟩
    rw [h, h2]
  · have h1 : a.overlaps b = false := Bool.not_eq_true _ ▸ Bool.of_not_eq_true h
    have h2 : b.overlaps a = false := by
      rw [overlaps_eq_false_iff] at h1 ⊢
      rcases h1 with h1 | h1 | h1 | h1
      · exact Or.inr (Or.inl h1)
      · exact Or.inl h1
      · exact Or.inr (Or.inr (Or.inr h1))
      · exact Or.inr (Or.inr (Or.inl h1))
    rw [h1, h2]

theorem mem_split_one {rect placed s : UnusedArea}
    (hov : rect.overlaps placed = true) (hs : s ∈ split_one rect placed) :
    Inside s rect ∧ s.overlaps placed = false := by
  rw [overlaps_eq_true_iff] at hov
  obtain ⟨o1, o2, o3, o4⟩ := hov
  simp only [split_one, List.mem_append] at hs
  rcases hs with ((hs | hs) | hs) | hs
  · -- left piece
    by_cases hc : placed.x > rect.x
    · rw [if_pos hc] at hs
      simp only [List.mem_singleton] at hs
      subst hs
      constructor
      · exact ⟨le_refl _, le_refl _, by dsimp; linarith, by dsimp; linarith⟩
      · rw [overlaps_eq_false_iff]
        exact Or.inr (Or.inl (by dsimp; linarith))
    · rw [if_neg hc] at hs
      exact absurd hs (List.not_mem_nil s)
  · -- right piece
    by_cases hc : placed.x + placed.width < rect.x + rect.width
    · rw [if_pos hc] at hs
      simp only [List.mem_singleton] at hs
      subst hs
      constructor
      · exact ⟨by dsimp; linarith, le_refl _, by dsimp; linarith, by dsimp; linarith⟩
      · rw [overlaps_eq_false_iff]
        exact Or.inl (by dsimp; linarith)
    · rw [if_neg hc] at hs
      exact absurd hs (List.not_mem_nil s)
  · -- bottom piece
    by_cases hc : placed.y > rect.y
    · rw [if_pos hc] at hs
      simp only [List.mem_singleton] at hs
      subst hs
      constructor
      · exact ⟨le_refl _, le_refl _, by dsimp; linarith, by dsimp; linarith⟩
      · rw [overlaps_eq_false_iff]
        exact Or.inr (Or.inr (Or.inr (by dsimp; linarith)))
    · rw [if_neg hc] at hs
      exact absurd hs (List.not_mem_nil s)
  · -- top piece
    by_cases hc : placed.y + placed.height < rect.y + rect.height
    · rw [if_pos hc] at hs
      simp only [List.mem_singleton] at hs
      subst hs
      constructor
      · exact ⟨le_refl _, by dsimp; linarith, by dsimp; linarith, by dsimp; linarith⟩
      · rw [overlaps_eq_false_iff]
        exact Or.inr (Or.inr (Or.inl (by dsimp; linarith)))
    · rw [if_neg hc] at hs
      exact absurd hs (List.not_mem_nil s)

theorem mem_split_no_prune {free : List UnusedArea} {placed r' : UnusedArea}
    (h : r' ∈ split_no_prune free placed) :
    ∃ r ∈ free, Inside r' r ∧ r'.overlaps placed = false := by
  simp only [split_no_prune, List.mem_flatMap] at h
  obtain ⟨rect, hrect, hmem⟩ := h
  by_cases hov : rect.overlaps placed = true
  · rw [if_pos hov] at hmem
    obtain ⟨hin, hfalse⟩ := mem_split_one hov hmem
    exact ⟨rect, hrect, hin, hfalse⟩
  · rw [if_neg hov] at hmem
    simp only [List.mem_singleton] at hmem
    subst hmem
    exact ⟨r', hrect, inside_refl _, (Bool.not_eq_true _) ▸ hov⟩

theorem mem_prune {rects : List UnusedArea} {r : UnusedArea}
    (h : r ∈ prune_contained_rects rects) : r ∈ rects := by
  simp only [prune_contained_rects, List.mem_map, List.mem_filter] at h
  obtain ⟨p, ⟨hp, _⟩, hpr⟩ := h
  have : p.2 ∈ rects.enum.map Prod.snd := List.mem_map_of_mem _ hp
  rw [List.enum_map_snd] at this
  exact hpr ▸ this

theorem split_free_eq (free : List UnusedArea) (placed : UnusedArea) :
    split_free_rects_around_placement free placed =
      prune_contained_rects (split_no_prune free placed) := rfl

theorem mem_split_free {free : List UnusedArea} {placed r' : UnusedArea}
    (h : r' ∈ split_free_rects_around_placement free placed) :
    ∃ r ∈ free, Inside r' r ∧ r'.overlaps placed = false := by
  rw [split_free_eq] at h
  exact mem_split_no_prune (mem_prune h)

theorem mem_foldl_split (k : ℚ) (ps : List Placement) (init : List UnusedArea)
    (r' : UnusedArea)
    (h : r' ∈ ps.foldl
      (fun rects p => split_free_rects_around_placement rects (placedRect k p)) init) :
    ∃ r0 ∈ init, Inside r' r0 ∧ ∀ p ∈ ps, r'.overlaps (placedRect k p) = false := by
  induction ps generalizing init with
  | nil =>
    exact ⟨r', h, inside_refl _, by simp⟩
  | cons p rest ih =>
    simp only [List.foldl_cons] at h
    obtain ⟨r1, hr1, hin1, havoid⟩ := ih _ h
    obtain ⟨r0, hr0, hin0, hfalse⟩ := mem_split_free hr1
    refine ⟨r0, hr0, inside_trans hin1 hin0, ?_⟩
    intro q hq
    rcases List.mem_cons.mp hq with rfl | hq
    · exact not_overlaps_of_inside hin1 hfalse
    · exact havoid q hq

theorem mem_find_unused_areas {req : OptimizationRequest} {layout : PanelLayout}
    {r : UnusedArea} (h : r ∈ find_unused_areas req layout) :
    Inside r (usableRect layout) ∧
      ∀ p ∈ layout.placements, r.overlaps (placedRect req.cut_width p) = false := by
  simp only [find_unused_areas] at h
  split at h
  · exact absurd h (List.not_mem_nil r)
  · obtain ⟨hmem, _⟩ := List.mem_filter.mp h
    obtain ⟨r0, hr0, hin, havoid⟩ := mem_foldl_split _ _ _ _ hmem
    simp only [List.mem_singleton] at hr0
    subst hr0
    exact ⟨hin, havoid⟩

/-! ## Candidate-search specifications -/

theorem considerCandidate_cases {best : Option (Placement × ℚ)} {pl : Placement}
    {s : ℚ} {p : Placement} {q : ℚ}
    (h : considerCandidate best pl s = some (p, q)) :
    (p = pl ∧ q = s) ∨ best = some (p, q) := by
  match best with
  | none =>
    simp only [considerCandidate, Option.some.injEq, Prod.mk.injEq] at h
    exact Or.inl ⟨h.1.symm, h.2.symm⟩
  | some (bp, bs) =>
    simp only [considerCandidate] at h
    split at h
    · simp only [Option.some.injEq, Prod.mk.injEq] at h
      exact Or.inl ⟨h.1.symm, h.2.symm⟩
    · exact Or.inr h

theorem find_best_placement_spec {req : OptimizationRequest} {item : Item}
    {layout : PanelLayout} {pl : Placement} {s : ℚ}
    (h : find_best_placement req item layout = some (pl, s)) :
    ∃ area ∈ find_unused_areas req layout, PlacedFromArea item area pl := by
  set Q : Placement → Prop :=
    fun p => ∃ area ∈ find_unused_areas req layout, PlacedFromArea item area p with hQ
  suffices H : ∀ (l : List UnusedArea), (∀ a ∈ l, a ∈ find_unused_areas req layout) →
      ∀ (init : Option (Placement × ℚ)), (∀ p q, init = some (p, q) → Q p) →
      ∀ p q, l.foldl (fun best area =>
        let best :=
          if item.width ≤ area.width ∧ item.height ≤ area.height then
            considerCandidate best
              { item_id := item.id, x := area.x, y := area.y,
                width := item.width, height := item.height, rotated := false }
              (calculate_placement_score req area.x area.y item.width item.height area layout)
          else best
        if item.can_rotate ∧ item.height ≤ area.width ∧ item.width ≤ area.height then
          considerCandidate best
            { item_id := item.id, x := area.x, y := area.y,
              width := item.height, height := item.width, rotated := true }
            (calculate_placement_score req area.x area.y item.height item.width area layout)
        else best) init = some (p, q) → Q p by
    exact H _ (fun _ h => h) none (by simp) pl s h
  intro l
  induction l with
  | nil =>
    intro _ init hinit p q hfold
    exact hinit p q hfold
  | cons a rest ih =>
    intro hsub init hinit p q hfold
    rw [List.foldl_cons] at hfold
    refine ih (fun x hx => hsub x (List.mem_cons_of_mem a hx)) _ ?_ p q hfold
    intro p' q' hstep
    have hamem : a ∈ find_unused_areas req layout := hsub a (List.mem_cons_self a rest)
    dsimp only at hstep
    split at hstep
    case isTrue hrot =>
      rcases considerCandidate_cases hstep with ⟨rfl, _⟩ | hrest
      · exact ⟨a, hamem, rfl, rfl, rfl, by dsimp; exact hrot.2.1, by dsimp; exact hrot.2.2,
          Or.inr ⟨hrot.1, rfl, rfl⟩⟩
      · split at hrest
        case isTrue hfit =>
          rcases considerCandidate_cases hrest with ⟨rfl, _⟩ | hinit2
          · exact ⟨a, hamem, rfl, rfl, rfl, by dsimp; exact hfit.1, by dsimp; exact hfit.2,
              Or.inl ⟨rfl, rfl⟩⟩
          · exact hinit p' q' hinit2
        case isFalse => exact hinit p' q' hrest
    case isFalse =>
      split at hstep
      case isTrue hfit =>
        rcases considerCandidate_cases hstep with ⟨rfl, _⟩ | hinit2
        · exact ⟨a, hamem, rfl, rfl, rfl, by dsimp; exact hfit.1, by dsimp; exact hfit.2,
            Or.inl ⟨rfl, rfl⟩⟩
        · exact hinit p' q' hinit2
      case isFalse => exact hinit p' q' hstep

theorem inside_orig_of_placedFromArea {item : Item} {area : UnusedArea}
    {pl : Placement} (h : PlacedFromArea item area pl) :
    Inside (origRect pl) area := by
  obtain ⟨_, hx, hy, hw, hh, _⟩ := h
  exact ⟨le_of_eq hx.symm, le_of_eq hy.symm, by dsimp [origRect]; rw [hx]; linarith,
    by dsimp [origRect]; rw [hy]; linarith⟩

theorem find_best_placement_good {req : OptimizationRequest} {item : Item}
    {layout : PanelLayout} {pl : Placement} {s : ℚ}
    (h : find_best_placement req item layout = some (pl, s)) :
    pl.item_id = item.id ∧ Inside (origRect pl) (usableRect layout) ∧
      ∀ p ∈ layout.placements,
        (placedRect req.cut_width p).overlaps (origRect pl) = false := by
  obtain ⟨area, hmem, hpfa⟩ := find_best_placement_spec h
  obtain ⟨hin, havoid⟩ := mem_find_unused_areas hmem
  have hin2 : Inside (origRect pl) area := inside_orig_of_placedFromArea hpfa
  refine ⟨hpfa.1, inside_trans hin2 hin, ?_⟩
  intro p hp
  rw [overlaps_comm]
  exact not_overlaps_of_inside hin2 (havoid p hp)

theorem mem_generate_candidate_placements {req : OptimizationRequest}
    {item : Item} {layout : PanelLayout} {c : Placement × ℚ × ℚ × ℚ}
    (h : c ∈ generate_candidate_placements req item layout) :
    ∃ area ∈ find_unused_areas req layout, PlacedFromArea item area c.1 := by
  simp only [generate_candidate_placements, List.mem_flatMap, List.mem_append] at h
  obtain ⟨area, hmem, hc⟩ := h
  refine ⟨area, hmem, ?_⟩
  rcases hc with hc | hc
  · split at hc
    case isTrue hfit =>
      simp only [List.mem_singleton] at hc
      subst hc
      exact ⟨rfl, rfl, rfl, hfit.1, hfit.2, Or.inl ⟨rfl, rfl⟩⟩
    case isFalse => exact absurd hc (List.not_mem_nil c)
  · split at hc
    case isTrue hrot =>
      simp only [List.mem_singleton] at hc
      subst hc
      exact ⟨rfl, rfl, rfl, hrot.2.1, hrot.2.2, Or.inr ⟨hrot.1, rfl, rfl⟩⟩
    case isFalse => exact absurd hc (List.not_mem_nil c)

theorem try_place_item_spec {req : OptimizationRequest} {item : Item}
    {layout : PanelLayout} {pl : Placement}
    (h : try_place_item req item layout = some pl) :
    ∃ area ∈ find_unused_areas req layout, PlacedFromArea item area pl := by
  simp only [try_place_item, Option.map_eq_some'] at h
  obtain ⟨c, hc, hpl⟩ := h
  suffices H : ∀ (l : List (Placement × ℚ × ℚ × ℚ)),
      (∀ x ∈ l, x ∈ generate_candidate_placements req item layout) →
      ∀ (init : Option (Placement × ℚ × ℚ × ℚ)),
      (∀ x, init = some x → x ∈ generate_candidate_placements req item layout) →
      ∀ x, l.foldl (fun best c =>
        match best with
        | none => some c
        | some b => if c.2.1 < b.2.1 then some c else some b) init = some x →
      x ∈ generate_candidate_placements req item layout by
    have := H _ (fun _ h => h) none (by simp) c hc
    exact hpl ▸ mem_generate_candidate_placements this
  intro l
  induction l with
  | nil => exact fun _ init hinit x h => hinit x h
  | cons a rest ih =>
    intro hsub init hinit x hfold
    rw [List.foldl_cons] at hfold
    refine ih (fun y hy => hsub y (List.mem_cons_of_mem a hy)) _ ?_ x hfold
    intro y hy
    have hamem := hsub a (List.mem_cons_self a rest)
    match hi : init with
    | none =>
      simp only [hi] at hy
      simp only [Option.some.injEq] at hy
      exact hy ▸ hamem
    | some b =>
      simp only [hi] at hy
      split at hy <;> simp only [Option.some.injEq] at hy
      · exact hy ▸ hamem
      · exact hy ▸ hinit b rfl

theorem try_place_item_good {req : OptimizationRequest} {item : Item}
    {layout : PanelLayout} {pl : Placement}
    (h : try_place_item req item layout = some pl) :
    pl.item_id = item.id ∧ Inside (origRect pl) (usableRect layout) ∧
      ∀ p ∈ layout.placements,
        (placedRect req.cut_width p).overlaps (origRect pl) = false := by
  obtain ⟨area, hmem, hpfa⟩ := try_place_item_spec h
  obtain ⟨hin, havoid⟩ := mem_find_unused_areas hmem
  have hin2 : Inside (origRect pl) area := inside_orig_of_placedFromArea hpfa
  refine ⟨hpfa.1, inside_trans hin2 hin, ?_⟩
  intro p hp
  rw [overlaps_comm]
  exact not_overlaps_of_inside hin2 (havoid p hp)

/-! ## New-panel selection specifications -/

theorem best_new_panel_placement_spec {req : OptimizationRequest} {item : Item}
    {panel_type : PanelType} {pw ph : ℚ} {pl : Placement} {s : ℚ}
    (h : best_new_panel_placement req item panel_type pw ph = some (pl, s)) :
    0 < pw - panel_type.trimming * 2 ∧ 0 < ph - panel_type.trimming * 2 ∧
      NewPanelPlacement item panel_type pw ph pl := by
  simp only [best_new_panel_placement] at h
  split at h
  · exact absurd h (by simp)
  case isFalse hpos =>
    push_neg at hpos
    refine ⟨lt_of_not_le (by exact fun hc => absurd hc (not_le.mpr hpos.1)), by linarith [hpos.2], ?_⟩
    split at h
    case isTrue hrot =>
      rcases considerCandidate_cases h with ⟨rfl, _⟩ | hbase
      · exact ⟨rfl, rfl, rfl, by dsimp; exact hrot.2.1, by dsimp; exact hrot.2.2,
          Or.inr ⟨hrot.1, rfl, rfl⟩⟩
      · split at hbase
        case isTrue hfit =>
          simp only [Option.some.injEq, Prod.mk.injEq] at hbase
          obtain ⟨hpl, _⟩ := hbase
          subst hpl
          exact ⟨rfl, rfl, rfl, by dsimp; exact hfit.1, by dsimp; exact hfit.2,
            Or.inl ⟨rfl, rfl⟩⟩
        case isFalse => exact absurd hbase (by simp)
    case isFalse =>
      split at h
      case isTrue hfit =>
        simp only [Option.some.injEq, Prod.mk.injEq] at h
        obtain ⟨hpl, _⟩ := h
        subst hpl
        exact ⟨rfl, rfl, rfl, by dsimp; exact hfit.1, by dsimp; exact hfit.2,
          Or.inl ⟨rfl, rfl⟩⟩
      case isFalse => exact absurd h (by simp)

theorem considerCandidate_ne_none (best : Option (Placement × ℚ)) (pl : Placement)
    (s : ℚ) : considerCandidate best pl s ≠ none := by
  match best with
  | none => simp [considerCandidate]
  | some (bp, bs) =>
    simp only [considerCandidate]
    split <;> simp

theorem best_new_panel_placement_none_iff {req : OptimizationRequest}
    {item : Item} {panel_type : PanelType} {pw ph : ℚ} :
    best_new_panel_placement req item panel_type pw ph = none ↔
      (pw - panel_type.trimming * 2 ≤ 0 ∨ ph - panel_type.trimming * 2 ≤ 0) ∨
      ¬ FitsDims item (pw - panel_type.trimming * 2) (ph - panel_type.trimming * 2) := by
  simp only [best_new_panel_placement]
  split
  case isTrue hpos => exact ⟨fun _ => Or.inl hpos, fun _ => rfl⟩
  case isFalse hpos =>
    constructor
    · intro h
      split at h
      case isTrue hrot => exact absurd h (considerCandidate_ne_none _ _ _)
      case isFalse hrot =>
        split at h
        case isTrue hfit => exact absurd h (by simp)
        case isFalse hfit =>
          right
          rintro (hfd | hfd)
          · exact hfit hfd
          · exact hrot ⟨hfd.1, hfd.2.1, hfd.2.2⟩
    · rintro (hbad | hbad)
      · exact absurd hbad hpos
      · have hfitF : ¬ (item.width ≤ pw - panel_type.trimming * 2 ∧
            item.height ≤ ph - panel_type.trimming * 2) := fun hc => hbad (Or.inl hc)
        have hrotF : ¬ (item.can_rotate = true ∧ item.height ≤ pw - panel_type.trimming * 2 ∧
            item.width ≤ ph - panel_type.trimming * 2) := fun hc => hbad (Or.inr hc)
        rw [if_neg hrotF, if_neg hfitF]

theorem considerNewPanel_cases {best : Option NewPanelCand} {cand c : NewPanelCand}
    (h : considerNewPanel best cand = some c) : c = cand ∨ best = some c := by
  match best with
  | none =>
    simp only [considerNewPanel, Option.some.injEq] at h
    exact Or.inl h.symm
  | some b =>
    simp only [considerNewPanel] at h
    split at h <;> simp only [Option.some.injEq] at h
    · exact Or.inl h.symm
    · exact Or.inr (congrArg some h)

theorem considerNewPanel_ne_none (best : Option NewPanelCand) (cand : NewPanelCand) :
    considerNewPanel best cand ≠ none := by
  match best with
  | none => simp [considerNewPanel]
  | some b =>
    simp only [considerNewPanel]
    split <;> simp

/-- Property of every candidate accumulated by `place_on_new_panel`. -/
def NewPanelCandOk (req : OptimizationRequest) (item : Item) (c : NewPanelCand) : Prop :=
  c.1 ∈ req.panel_types ∧ (c.2.1, c.2.2.1) ∈ orientationsOf c.1 ∧
    best_new_panel_placement req item c.1 c.2.1 c.2.2.1 = some (c.2.2.2.1, c.2.2.2.2.1)

theorem place_on_new_panel_fold_spec (req : OptimizationRequest) (item : Item) :
    ∀ c, newPanelFold req item = some c → NewPanelCandOk req item c := by
  rw [newPanelFold]
  suffices H : ∀ (pts : List PanelType), (∀ pt ∈ pts, pt ∈ req.panel_types) →
      ∀ (init : Option NewPanelCand), (∀ c, init = some c → NewPanelCandOk req item c) →
      ∀ c, (pts.foldl
        (fun best panel_type =>
          (orientationsOf panel_type).foldl
            (fun best pw_ph =>
              match best_new_panel_placement req item panel_type pw_ph.1 pw_ph.2 with
              | none => best
              | some (placement, score) =>
                let capacity := estimate_panel_capacity req item pw_ph.1 pw_ph.2
                  panel_type.trimming
                considerNewPanel best (panel_type, pw_ph.1, pw_ph.2, placement, score, capacity))
            best)
        init) = some c → NewPanelCandOk req item c by
    intro c
    exact H _ (fun _ h => h) none (by simp) c
  intro pts
  induction pts with
  | nil => exact fun _ init hinit c h => hinit c h
  | cons pt rest ih =>
    intro hsub init hinit c hfold
    rw [List.foldl_cons] at hfold
    refine ih (fun x hx => hsub x (List.mem_cons_of_mem pt hx)) _ ?_ c hfold
    have hptmem : pt ∈ req.panel_types := hsub pt (List.mem_cons_self pt rest)
    suffices G : ∀ (os : List (ℚ × ℚ)), (∀ o ∈ os, o ∈ orientationsOf pt) →
        ∀ (acc : Option NewPanelCand), (∀ c, acc = some c → NewPanelCandOk req item c) →
        ∀ c, (os.foldl
          (fun best pw_ph =>
            match best_new_panel_placement req item pt pw_ph.1 pw_ph.2 with
            | none => best
            | some (placement, score) =>
              let capacity := estimate_panel_capacity req item pw_ph.1 pw_ph.2 pt.trimming
              considerNewPanel best (pt, pw_ph.1, pw_ph.2, placement, score, capacity))
          acc) = some c → NewPanelCandOk req item c by
      exact G _ (fun _ h => h) init hinit
    intro os
    induction os with
    | nil => exact fun _ acc hacc c h => hacc c h
    | cons o orest oih =>
      intro hos acc hacc c hfold2
      rw [List.foldl_cons] at hfold2
      refine oih (fun x hx => hos x (List.mem_cons_of_mem o hx)) _ ?_ c hfold2
      intro c' hstep
      rcases hb : best_new_panel_placement req item pt o.1 o.2 with _ | ⟨pl2, s2⟩
      · rw [hb] at hstep
        exact hacc c' hstep
      · rw [hb] at hstep
        dsimp only at hstep
        rcases considerNewPanel_cases hstep with rfl | hold
        · exact ⟨hptmem, hos o (List.mem_cons_self o orest), hb⟩
        · exact hacc c' hold

theorem place_on_new_panel_spec {req : OptimizationRequest} {item : Item}
    {panel_type : PanelType} {pw ph : ℚ} {pl : Placement}
    (h : place_on_new_panel req item = .ok (some (panel_type, pw, ph, pl))) :
    panel_type ∈ req.panel_types ∧ (pw, ph) ∈ orientationsOf panel_type ∧
      ∃ s, best_new_panel_placement req item panel_type pw ph = some (pl, s) := by
  rw [place_on_new_panel] at h
  rcases hfold : newPanelFold req item with _ | ⟨pt2, pw2, ph2, pl2, s2, cap2⟩ <;>
    rw [hfold] at h
  · exact absurd h (by simp)
  · simp only [Except.ok.injEq, Option.some.injEq, Prod.mk.injEq] at h
    obtain ⟨h1, h2, h3, h4⟩ := h
    subst h1; subst h2; subst h3; subst h4
    have := place_on_new_panel_fold_spec req item _ hfold
    exact ⟨this.1, this.2.1, ⟨s2, this.2.2⟩⟩

theorem place_on_new_panel_ne_ok_none (req : OptimizationRequest) (item : Item) :
    place_on_new_panel req item ≠ .ok none := by
  rw [place_on_new_panel]
  rcases newPanelFold req item with _ | ⟨pt2, pw2, ph2, pl2, s2, cap2⟩ <;> simp

theorem newPanelFold_none_iff {req : OptimizationRequest} {item : Item} :
    newPanelFold req item = none ↔
      ∀ pt ∈ req.panel_types, ∀ o ∈ orientationsOf pt,
        best_new_panel_placement req item pt o.1 o.2 = none := by
  have inner : ∀ (pt : PanelType) (os : List (ℚ × ℚ)) (acc : Option NewPanelCand),
      (os.foldl
        (fun best pw_ph =>
          match best_new_panel_placement req item pt pw_ph.1 pw_ph.2 with
          | none => best
          | some (placement, score) =>
            let capacity := estimate_panel_capacity req item pw_ph.1 pw_ph.2 pt.trimming
            considerNewPanel best (pt, pw_ph.1, pw_ph.2, placement, score, capacity))
        acc) = none ↔
      (acc = none ∧ ∀ o ∈ os, best_new_panel_placement req item pt o.1 o.2 = none) := by
    intro pt os
    induction os with
    | nil => simp
    | cons o orest oih =>
      intro acc
      rw [List.foldl_cons]
      rcases hb : best_new_panel_placement req item pt o.1 o.2 with _ | ⟨pl2, s2⟩
      · simp only [hb]
        rw [oih]
        constructor
        · rintro ⟨h1, h2⟩
          exact ⟨h1, fun o' ho' => by
            rcases List.mem_cons.mp ho' with rfl | ho'
            · exact hb
            · exact h2 o' ho'⟩
        · rintro ⟨h1, h2⟩
          exact ⟨h1, fun o' ho' => h2 o' (List.mem_cons_of_mem o ho')⟩
      · simp only [hb]
        rw [oih]
        constructor
        · rintro ⟨h1, _⟩
          exact absurd h1 (considerNewPanel_ne_none _ _)
        · rintro ⟨_, h2⟩
          exact absurd hb (by rw [h2 o (List.mem_cons_self o orest)]; simp)
  rw [newPanelFold]
  have outer : ∀ (pts : List PanelType) (init : Option NewPanelCand),
      (pts.foldl
        (fun best panel_type =>
          (orientationsOf panel_type).foldl
            (fun best pw_ph =>
              match best_new_panel_placement req item panel_type pw_ph.1 pw_ph.2 with
              | none => best
              | some (placement, score) =>
                let capacity := estimate_panel_capacity req item pw_ph.1 pw_ph.2
                  panel_type.trimming
                considerNewPanel best (panel_type, pw_ph.1, pw_ph.2, placement, score, capacity))
            best)
        init) = none ↔
      (init = none ∧ ∀ pt ∈ pts, ∀ o ∈ orientationsOf pt,
        best_new_panel_placement req item pt o.1 o.2 = none) := by
    intro pts
    induction pts with
    | nil => simp
    | cons pt rest ih =>
      intro init
      rw [List.foldl_cons, ih, inner]
      constructor
      · rintro ⟨⟨h1, h2⟩, h3⟩
        refine ⟨h1, fun pt' hpt' => ?_⟩
        rcases List.mem_cons.mp hpt' with rfl | hpt'
        · exact h2
        · exact h3 pt' hpt'
      · rintro ⟨h1, h2⟩
        exact ⟨⟨h1, h2 pt (List.mem_cons_self pt rest)⟩,
          fun pt' hpt' => h2 pt' (List.mem_cons_of_mem pt hpt')⟩
  rw [outer]
  simp

theorem place_on_new_panel_error_iff {req : OptimizationRequest} {item : Item} :
    place_on_new_panel req item = .error .cannotFitAll ↔
      newPanelFold req item = none := by
  rw [place_on_new_panel]
  rcases hfold : newPanelFold req item with _ | ⟨pt2, pw2, ph2, pl2, s2, cap2⟩ <;> simp

/-! ## Claim C6: the scoring formula -/

/-- C6: for every candidate placement `(x, y, w, h)` against a free rectangle
on a layout, `calculate_placement_score` equals the spec's mode-dependent
formula: `(y·10000 + x) − 200·contact + sliver` in default mode,
`(y·10000 + x) − 50·contact + 2·sliver` in reusable-remnant mode, and
`(y·100 + 0.1·x) + 10000·fit_ratio − 500·contact + sliver + height_fit_bonus +
width_fit_bonus` in min-initial-usage mode, with `fit_ratio`, the sliver
penalty and the fit bonuses exactly as the claim states them. -/
theorem C6_placement_score_formula (req : OptimizationRequest)
    (x y width height : ℚ) (area : UnusedArea) (layout : PanelLayout) :
    calculate_placement_score req x y width height area layout =
      spec_score (modeOf req) x y width height area.width area.height
        req.cut_width (calculate_contact_score req x y width height layout) := by
  unfold calculate_placement_score spec_score modeOf
  by_cases h1 : req.min_initial_usage <;>
    by_cases h2 : req.optimize_for_reusable_remnants <;>
    simp only [h1, h2, if_true, if_false, Bool.false_eq_true, Bool.true_eq_false] <;>
    ring

/-! ## Claim C4: free-region cover -/

theorem split_no_prune_cover {free : List UnusedArea} {placed : UnusedArea}
    {px py : ℚ} (hcov : ∃ r ∈ free, InRect px py r)
    (hout : ¬ InRect px py placed) :
    ∃ r' ∈ split_no_prune free placed, InRect px py r' := by
  obtain ⟨rect, hrect, hin⟩ := hcov
  obtain ⟨i1, i2, i3, i4⟩ := hin
  by_cases hov : rect.overlaps placed = true
  · simp only [InRect, not_and_or, not_le] at hout
    have hmem : ∀ piece, piece ∈ split_one rect placed → InRect px py piece →
        ∃ r' ∈ split_no_prune free placed, InRect px py r' := by
      intro piece hp hinp
      refine ⟨piece, ?_, hinp⟩
      simp only [split_no_prune, List.mem_flatMap]
      exact ⟨rect, hrect, by rw [if_pos hov]; exact hp⟩
    rcases hout with h | h | h | h
    · -- px < placed.x : left piece
      have hc : placed.x > rect.x := lt_of_le_of_lt i1 h
      refine hmem ⟨rect.x, rect.y, placed.x - rect.x, rect.height⟩ ?_ ?_
      · simp only [split_one, List.mem_append]
        left; left; left
        rw [if_pos hc]
        exact List.mem_singleton.mpr rfl
      · exact ⟨i1, by dsimp; linarith, i3, by dsimp; linarith⟩
    · -- px > placed right : right piece
      have hc : placed.x + placed.width < rect.x + rect.width := lt_of_lt_of_le h i2
      refine hmem ⟨placed.x + placed.width, rect.y,
          rect.x + rect.width - (placed.x + placed.width), rect.height⟩ ?_ ?_
      · simp only [split_one, List.mem_append]
        left; left; right
        rw [if_pos hc]
        exact List.mem_singleton.mpr rfl
      · exact ⟨by dsimp; linarith, by dsimp; linarith, i3, by dsimp; linarith⟩
    · -- py < placed.y : bottom piece
      have hc : placed.y > rect.y := lt_of_le_of_lt i3 h
      refine hmem ⟨rect.x, rect.y, rect.width, placed.y - rect.y⟩ ?_ ?_
      · simp only [split_one, List.mem_append]
        left; right
        rw [if_pos hc]
        exact List.mem_singleton.mpr rfl
      · exact ⟨i1, by dsimp; linarith, i3, by dsimp; linarith⟩
    · -- py > placed top : top piece
      have hc : placed.y + placed.height < rect.y + rect.height := lt_of_lt_of_le h i4
      refine hmem ⟨rect.x, placed.y + placed.height, rect.width,
          rect.y + rect.height - (placed.y + placed.height)⟩ ?_ ?_
      · simp only [split_one, List.mem_append]
        right
        rw [if_pos hc]
        exact List.mem_singleton.mpr rfl
      · exact ⟨i1, by dsimp; linarith, by dsimp; linarith, by dsimp; linarith⟩
  · refine ⟨rect, ?_, ⟨i1, i2, i3, i4⟩⟩
    simp only [split_no_prune, List.mem_flatMap]
    refine ⟨rect, hrect, ?_⟩
    rw [if_neg hov]
    exact List.mem_singleton.mpr rfl

/-- C4 (amended): every point of the usable area lying strictly outside every
kerf-expanded placement is covered by the raw split pieces, i.e. by
`find_unused_areas` computed without the tolerance-0.5 containment prune and
without the small-rectangle filter. (The pruned, filtered set returned by
`find_unused_areas` itself can lose such points — see the counterexample.) -/
theorem C4_raw_split_cover (req : OptimizationRequest) (layout : PanelLayout)
    (px py : ℚ)
    (hw : 0 < layout.width - layout.trimming * 2)
    (hh : 0 < layout.height - layout.trimming * 2)
    (hin : InRect px py (usableRect layout))
    (hfree : ∀ p ∈ layout.placements, ¬ InRect px py (placedRect req.cut_width p)) :
    ∃ r ∈ find_unused_areas_no_prune req layout, InRect px py r := by
  rw [find_unused_areas_no_prune]
  rw [if_neg (by push_neg; exact ⟨hw, hh⟩)]
  have H : ∀ (ps : List Placement) (init : List UnusedArea),
      (∃ r ∈ init, InRect px py r) →
      (∀ p ∈ ps, ¬ InRect px py (placedRect req.cut_width p)) →
      ∃ r ∈ ps.foldl (fun rects p => split_no_prune rects (placedRect req.cut_width p)) init,
        InRect px py r := by
    intro ps
    induction ps with
    | nil => exact fun init hcov _ => hcov
    | cons p rest ih =>
      intro init hcov hfree2
      rw [List.foldl_cons]
      exact ih _ (split_no_prune_cover hcov (hfree2 p (List.mem_cons_self p rest)))
        (fun q hq => hfree2 q (List.mem_cons_of_mem p hq))
  exact H layout.placements _ ⟨usableRect layout, List.mem_singleton.mpr rfl, hin⟩ hfree

/-- C4 counterexample: on a 100×100 panel (trimming 0, kerf 0) with the single
placement `(60, 0.2, 40, 0.2)`, the point `(30, 0.1)` lies in the usable area
and strictly outside the kerf-expanded placement, yet no rectangle returned by
`find_unused_areas` contains it: the tolerance-0.5 containment prune discarded
the whole left free column `[0,60] × [0,100]` (which is not a ≤ 0.5 sliver), so
the returned set is not a superset cover of the free region. -/
theorem C4_counterexample :
    (0 < exPruneLayout.width - exPruneLayout.trimming * 2) ∧
    (0 < exPruneLayout.height - exPruneLayout.trimming * 2) ∧
    InRect 30 (1/10) (usableRect exPruneLayout) ∧
    (∀ p ∈ exPruneLayout.placements,
      ¬ InRect 30 (1/10) (placedRect exPruneReq.cut_width p)) ∧
    ¬ (∃ r ∈ find_unused_areas exPruneReq exPruneLayout, InRect 30 (1/10) r) := by
  decide

/-- Witness for the amended C4 on the concrete pruning layout: the raw split
pieces do cover the free point that the pruned set loses. -/
theorem C4_raw_split_cover_witness :
    (0 < exPruneLayout.width - exPruneLayout.trimming * 2) ∧
    (0 < exPruneLayout.height - exPruneLayout.trimming * 2) ∧
    InRect 30 (1/10) (usableRect exPruneLayout) ∧
    (∀ p ∈ exPruneLayout.placements,
      ¬ InRect 30 (1/10) (placedRect exPruneReq.cut_width p)) ∧
    ∃ r ∈ find_unused_areas_no_prune exPruneReq exPruneLayout, InRect 30 (1/10) r :=
  ⟨by decide, by decide, by decide, by decide,
    C4_raw_split_cover exPruneReq exPruneLayout 30 (1/10) (by decide) (by decide)
      (by decide) (by decide)⟩

/-! ## The packing invariant through the pipeline -/

theorem mem_pushPlacementAt {ls : List PanelLayout} {idx : Nat} {pl : Placement}
    {l' : PanelLayout} (h : l' ∈ pushPlacementAt ls idx pl) :
    l' ∈ ls ∨ ∃ l, ls[idx]? = some l ∧
      l' = { l with placements := l.placements ++ [pl] } := by
  induction ls generalizing idx with
  | nil => exact absurd h (List.not_mem_nil l')
  | cons a rest ih =>
    match idx with
    | 0 =>
      rcases List.mem_cons.mp h with rfl | h2
      · exact Or.inr ⟨a, List.getElem?_cons_zero, rfl⟩
      · exact Or.inl (List.mem_cons_of_mem a h2)
    | n + 1 =>
      rcases List.mem_cons.mp h with rfl | h2
      · exact Or.inl (List.mem_cons_self _ rest)
      · rcases ih h2 with h3 | ⟨l, hl, hpush⟩
        · exact Or.inl (List.mem_cons_of_mem a h3)
        · exact Or.inr ⟨l, by simpa using hl, hpush⟩

theorem goodLayout_push {k : ℚ} {l : PanelLayout} {pl : Placement}
    (hg : GoodLayout k l) (hin : Inside (origRect pl) (usableRect l))
    (havoid : ∀ p ∈ l.placements, (placedRect k p).overlaps (origRect pl) = false) :
    GoodLayout k { l with placements := l.placements ++ [pl] } := by
  obtain ⟨hw, hsep⟩ := hg
  obtain ⟨h1, h2, h3, h4⟩ := hin
  constructor
  · intro p hp
    rcases List.mem_append.mp hp with hp | hp
    · exact hw p hp
    · rw [List.mem_singleton] at hp
      subst hp
      refine ⟨by simpa [usableRect] using h1, by simpa [usableRect] using h2, ?_, ?_⟩
      · dsimp [usableRect, origRect] at h3; linarith
      · dsimp [usableRect, origRect] at h4; linarith
  · rw [SeqSep, List.pairwise_append]
    refine ⟨hsep, List.pairwise_singleton _ _, ?_⟩
    intro p hp q hq
    rw [List.mem_singleton] at hq
    subst hq
    exact havoid p hp

theorem goodLayout_new_panel {k : ℚ} {item : Item} {pt : PanelType} {pw ph : ℚ}
    {pl : Placement} (h : NewPanelPlacement item pt pw ph pl)
    (id2 : String) (n : Nat) :
    GoodLayout k
      { panel_type_id := id2, panel_number := n, width := pw, height := ph,
        trimming := pt.trimming, placements := [pl], unused_areas := [] } := by
  obtain ⟨_, hx, hy, hw, hh, _⟩ := h
  constructor
  · intro p hp
    rw [List.mem_singleton] at hp
    subst hp
    exact ⟨by dsimp; rw [hx], by dsimp; rw [hy], by dsimp; rw [hx]; linarith,
      by dsimp; rw [hy]; linarith⟩
  · exact List.pairwise_singleton _ _

theorem bestExistingAux_spec {req : OptimizationRequest} {item : Item} :
    ∀ (ls : List PanelLayout) (i : Nat) (best : Option (Nat × Placement × ℚ))
      {j : Nat} {pl : Placement} {s : ℚ},
      bestExistingAux req item ls i best = some (j, pl, s) →
      best = some (j, pl, s) ∨
        ∃ m, m < ls.length ∧ j = i + m ∧ ∃ l, ls[m]? = some l ∧
          ∃ s0, find_best_placement req item l = some (pl, s0) := by
  intro ls
  induction ls with
  | nil =>
    intro i best j pl s h
    exact Or.inl h
  | cons a rest ih =>
    intro i best j pl s h
    rw [bestExistingAux] at h
    rcases ih _ _ h with hbest | ⟨m, hm, hj, l, hl, s0, hfbp⟩
    · -- the stepped accumulator produced the result
      rcases hfb : find_best_placement req item a with _ | ⟨pl2, s2⟩
      · rw [hfb] at hbest
        exact Or.inl hbest
      · rw [hfb] at hbest
        dsimp only at hbest
        rcases hb : best with _ | ⟨bi, bp, bs⟩
        · rw [hb] at hbest
          dsimp only at hbest
          simp only [Option.some.injEq, Prod.mk.injEq] at hbest
          obtain ⟨rfl, rfl, _⟩ := hbest
          exact Or.inr ⟨0, by simp, by simp, a, List.getElem?_cons_zero, s2, hfb⟩
        · rw [hb] at hbest
          dsimp only at hbest
          split at hbest <;> split at hbest <;>
            simp only [Option.some.injEq, Prod.mk.injEq] at hbest <;>
            obtain ⟨h1, h2, h3⟩ := hbest <;>
            first
              | (rw [h1, h2, h3]
                 exact Or.inl rfl)
              | (subst h1
                 subst h2
                 exact Or.inr ⟨0, by simp, by omega, a, List.getElem?_cons_zero, s2, hfb⟩)
    · exact Or.inr ⟨m + 1, by simpa using hm, by omega, l, by simpa using hl, s0, hfbp⟩

theorem bestExisting_spec {req : OptimizationRequest} {item : Item}
    {ls : List PanelLayout} {j : Nat} {pl : Placement} {s : ℚ}
    (h : bestExistingAux req item ls 0 none = some (j, pl, s)) :
    j < ls.length ∧ ∃ l, ls[j]? = some l ∧
      ∃ s0, find_best_placement req item l = some (pl, s0) := by
  rcases bestExistingAux_spec ls 0 none h with hbest | ⟨m, hm, hj, l, hl, s0, hfbp⟩
  · exact absurd hbest (by simp)
  · subst hj
    simpa using ⟨hm, l, hl, s0, hfbp⟩

theorem goodState_push {req : OptimizationRequest} {item : Item}
    {ls : List PanelLayout} {j : Nat} {pl : Placement} {s : ℚ}
    (hg : GoodState req ls)
    (h : bestExistingAux req item ls 0 none = some (j, pl, s)) :
    GoodState req (pushPlacementAt ls j pl) := by
  obtain ⟨_, l, hl, s0, hfbp⟩ := bestExisting_spec h
  intro l' hl'
  rcases mem_pushPlacementAt hl' with hmem | ⟨l2, hl2, rfl⟩
  · exact hg l' hmem
  · rw [hl] at hl2
    injection hl2 with hl2
    subst hl2
    have hlg := hg l (List.getElem?_mem hl)
    obtain ⟨_, hin, havoid⟩ := find_best_placement_good hfbp
    exact ⟨goodLayout_push hlg.1 hin havoid, hlg.2⟩

theorem bfdAux_goodState {req : OptimizationRequest} :
    ∀ (items : List Item) (ls out : List PanelLayout),
      bfdAux req items ls = .ok out → GoodState req ls → GoodState req out := by
  intro items
  induction items with
  | nil =>
    intro ls out h hg
    rw [bfdAux] at h
    injection h with h
    exact h ▸ hg
  | cons item rest ih =>
    intro ls out h hg
    rw [bfdAux] at h
    rcases hb : bestExistingAux req item ls 0 none with _ | ⟨j, pl, s⟩
    · rw [hb] at h
      rcases hp : place_on_new_panel req item with e | o
      · rw [hp] at h
        exact absurd h (by simp)
      · rw [hp] at h
        match o, hp with
        | none, hp =>
          exact absurd hp (place_on_new_panel_ne_ok_none req item)
        | some (pt, pw, ph, pl), hp =>
          dsimp only at h
          refine ih _ _ h ?_
          intro l' hl'
          rcases List.mem_append.mp hl' with hmem | hmem
          · exact hg l' hmem
          · rw [List.mem_singleton] at hmem
            subst hmem
            obtain ⟨hptmem, horient, s2, hbnpp⟩ := place_on_new_panel_spec hp
            have hnpp := (best_new_panel_placement_spec hbnpp).2.2
            exact ⟨goodLayout_new_panel hnpp _ _, pt, hptmem, rfl, horient⟩
    · rw [hb] at h
      exact ih _ _ h (goodState_push hg hb)

theorem redistribute_goodState {req : OptimizationRequest} :
    ∀ (items : List Item) (ls out : List PanelLayout),
      redistribute req items ls = some out → GoodState req ls → GoodState req out := by
  intro items
  induction items with
  | nil =>
    intro ls out h hg
    rw [redistribute] at h
    injection h with h
    exact h ▸ hg
  | cons item rest ih =>
    intro ls out h hg
    rw [redistribute] at h
    rcases hb : bestExistingAux req item ls 0 none with _ | ⟨j, pl, s⟩
    · rw [hb] at h
      exact absurd h (by simp)
    · rw [hb] at h
      exact ih _ _ h (goodState_push hg hb)

theorem goodState_eraseIdx {req : OptimizationRequest} {ls : List PanelLayout}
    (hg : GoodState req ls) (i : Nat) : GoodState req (ls.eraseIdx i) :=
  fun l hl => hg l (List.mem_of_mem_eraseIdx hl)

theorem reduceLoop_goodState {req : OptimizationRequest} {expanded : List Item} :
    ∀ (fuel : Nat) (ls : List PanelLayout),
      GoodState req ls → GoodState req (reduceLoop req expanded fuel ls) := by
  intro fuel
  induction fuel with
  | zero => exact fun ls hg => hg
  | succ n ih =>
    intro ls hg
    rw [reduceLoop]
    split
    · exact hg
    · rcases hmin : minUsed ls with _ | ⟨min_idx, target⟩
      · exact hg
      · dsimp only
        rcases hre : redistribute req
          (sortBy cmpAreaDesc (List.map (reconstructItem expanded) target.placements))
          (ls.eraseIdx min_idx) with _ | new_layouts
        · exact hg
        · exact ih _ (redistribute_goodState _ _ _ hre (goodState_eraseIdx hg min_idx))

theorem mem_renumberAux {ls : List PanelLayout} {counts : List (String × Nat)}
    {l' : PanelLayout} (h : l' ∈ renumberAux ls counts) :
    ∃ l ∈ ls, ∃ n, l' = { l with panel_number := n } := by
  induction ls generalizing counts with
  | nil => exact absurd h (List.not_mem_nil l')
  | cons a rest ih =>
    rw [renumberAux] at h
    rcases List.mem_cons.mp h with rfl | h2
    · exact ⟨a, List.mem_cons_self a rest, _, rfl⟩
    · obtain ⟨l, hl, n, hn⟩ := ih h2
      exact ⟨l, List.mem_cons_of_mem a hl, n, hn⟩

theorem goodState_renumber {req : OptimizationRequest} {ls : List PanelLayout}
    (hg : GoodState req ls) : GoodState req (renumber_panels ls) := by
  intro l' hl'
  obtain ⟨l, hl, n, rfl⟩ := mem_renumberAux hl'
  exact hg l hl

theorem try_reduce_goodState {req : OptimizationRequest} {ls : List PanelLayout}
    {expanded : List Item} (hg : GoodState req ls) :
    GoodState req (try_reduce_panels req ls expanded) := by
  rw [try_reduce_panels]
  split
  · exact hg
  · exact goodState_renumber (reduceLoop_goodState _ _ hg)

theorem optionalEntryScan_spec {req : OptimizationRequest} {panel_count : Nat}
    {full : List PanelLayout} {best_waste : ℚ} {entry : String × OptionalItem} :
    ∀ (sub : List PanelLayout) (i : Nat) {out : List PanelLayout},
      (∀ m, sub[m]? = full[i + m]?) →
      optionalEntryScan req panel_count full best_waste entry sub i = some out →
      ∃ j layout pl, full[j]? = some layout ∧
        try_place_item req (optional_to_item entry.2) layout = some pl ∧
        out = pushPlacementAt full j pl := by
  intro sub
  induction sub with
  | nil =>
    intro i out _ h
    rw [optionalEntryScan] at h
    exact absurd h (by simp)
  | cons layout rest ih =>
    intro i out hidx h
    have hnext : ∀ m, rest[m]? = full[(i + 1) + m]? := by
      intro m
      have := hidx (m + 1)
      simpa [Nat.add_assoc, Nat.add_comm 1 m] using this
    have hcur : full[i]? = some layout := by
      have := hidx 0
      simpa using this.symm
    rw [optionalEntryScan] at h
    split at h
    case isTrue hty =>
      rcases hp : try_place_item req (optional_to_item entry.2) layout with _ | pl
      · rw [hp] at h
        exact ih _ hnext h
      · rw [hp] at h
        dsimp only at h
        split at h
        · exact ih _ hnext h
        · split at h
          · injection h with h
            exact ⟨i, layout, pl, hcur, hp, h.symm⟩
          · exact ih _ hnext h
    case isFalse => exact ih _ hnext h

theorem optionalPass_spec {req : OptimizationRequest} {panel_count : Nat}
    {pool : List (String × OptionalItem)} {ls out : List PanelLayout} {id : String}
    (h : optionalPass req panel_count pool ls = some (out, id)) :
    ∃ entry ∈ pool, id = entry.2.id ∧
      ∃ j layout pl, ls[j]? = some layout ∧
        try_place_item req (optional_to_item entry.2) layout = some pl ∧
        out = pushPlacementAt ls j pl := by
  rw [optionalPass] at h
  suffices H : ∀ (sub : List (String × OptionalItem)) (init : Option (List PanelLayout × String)),
      (∀ r, init = some r → ∃ entry ∈ pool, r.2 = entry.2.id ∧
        ∃ j layout pl, ls[j]? = some layout ∧
          try_place_item req (optional_to_item entry.2) layout = some pl ∧
          r.1 = pushPlacementAt ls j pl) →
      (∀ e ∈ sub, e ∈ pool) →
      ∀ r, sub.foldl
        (fun found entry =>
          match found with
          | some r => some r
          | none =>
            match optionalEntryScan req panel_count ls
                (effectiveWasteArea (calculate_summary req ls)) entry ls 0 with
            | some new_layouts => some (new_layouts, entry.2.id)
            | none => none)
        init = some r →
      ∃ entry ∈ pool, r.2 = entry.2.id ∧
        ∃ j layout pl, ls[j]? = some layout ∧
          try_place_item req (optional_to_item entry.2) layout = some pl ∧
          r.1 = pushPlacementAt ls j pl by
    have := H pool none (by simp) (fun _ h => h) (out, id) h
    exact this
  intro sub
  induction sub with
  | nil => exact fun init hinit _ r h => hinit r h
  | cons e rest ih =>
    intro init hinit hsub r hfold
    rw [List.foldl_cons] at hfold
    refine ih _ ?_ (fun x hx => hsub x (List.mem_cons_of_mem e hx)) r hfold
    intro r' hr'
    rcases init with _ | r0
    · dsimp only at hr'
      rcases hscan : optionalEntryScan req panel_count ls
          (effectiveWasteArea (calculate_summary req ls)) e ls 0 with _ | new_layouts
      · rw [hscan] at hr'
        exact absurd hr' (by simp)
      · rw [hscan] at hr'
        dsimp only at hr'
        injection hr' with hr'
        subst hr'
        obtain ⟨j, layout, pl, hj, hp, hout⟩ :=
          optionalEntryScan_spec ls 0 (fun m => by simp) hscan
        exact ⟨e, hsub e (List.mem_cons_self e rest), rfl, j, layout, pl, hj, hp, hout⟩
    · dsimp only at hr'
      injection hr' with hr'
      exact hinit r0 rfl |>.imp (fun entry he => hr' ▸ he)

theorem goodState_push_optional {req : OptimizationRequest} {item : Item}
    {ls : List PanelLayout} {j : Nat} {layout : PanelLayout} {pl : Placement}
    (hg : GoodState req ls) (hj : ls[j]? = some layout)
    (hp : try_place_item req item layout = some pl) :
    GoodState req (pushPlacementAt ls j pl) := by
  intro l' hl'
  rcases mem_pushPlacementAt hl' with hmem | ⟨l2, hl2, rfl⟩
  · exact hg l' hmem
  · rw [hj] at hl2
    injection hl2 with hl2
    subst hl2
    have hlg := hg layout (List.getElem?_mem hj)
    obtain ⟨_, hin, havoid⟩ := try_place_item_good hp
    exact ⟨goodLayout_push hlg.1 hin havoid, hlg.2⟩

theorem optionalLoop_goodState {req : OptimizationRequest} {panel_count : Nat}
    {pool : List (String × OptionalItem)} :
    ∀ (fuel : Nat) (ls : List PanelLayout) (used : List String)
      {out : List PanelLayout} {used2 : List String},
      optionalLoop req panel_count pool fuel ls used = some (out, used2) →
      GoodState req ls → GoodState req out := by
  intro fuel
  induction fuel with
  | zero =>
    intro ls used out used2 h
    exact absurd h (by rw [optionalLoop]; simp)
  | succ n ih =>
    intro ls used out used2 h hg
    rw [optionalLoop] at h
    rcases hp : optionalPass req panel_count pool ls with _ | ⟨new_layouts, id⟩
    · rw [hp] at h
      dsimp only at h
      injection h with h
      injection h with h1 h2
      exact h1 ▸ hg
    · rw [hp] at h
      dsimp only at h
      obtain ⟨entry, _, _, j, layout, pl, hj, htpi, rfl⟩ := optionalPass_spec hp
      exact ih _ _ h (goodState_push_optional hg hj htpi)

theorem try_add_goodState {req : OptimizationRequest} {fuel : Nat}
    {ls out : List PanelLayout} {used : List String}
    (h : try_add_optional_items req fuel ls = some (out, used))
    (hg : GoodState req ls) : GoodState req out := by
  rw [try_add_optional_items] at h
  split at h
  · injection h with h
    injection h with h1 h2
    exact h1 ▸ hg
  · dsimp only at h
    split at h
    · injection h with h
      injection h with h1 h2
      exact h1 ▸ hg
    · exact optionalLoop_goodState _ _ _ h hg

theorem bestStrategyResult_goodState {req : OptimizationRequest}
    {expanded : List Item} {strategies : List (List Item)}
    {ls : List PanelLayout} {pc : Nat} {w : ℚ}
    (h : bestStrategyResult req expanded strategies = some (ls, pc, w)) :
    GoodState req ls := by
  rw [bestStrategyResult] at h
  suffices H : ∀ (ss : List (List Item)) (init : Option (List PanelLayout × Nat × ℚ)),
      (∀ r, init = some r → GoodState req r.1) →
      ∀ r, ss.foldl
        (fun best sorted_items =>
          match best_fit_decreasing_optimize req sorted_items with
          | .error _ => best
          | .ok layouts =>
            let layouts := try_reduce_panels req layouts expanded
            let panel_count := layouts.length
            let waste := (calculate_summary req layouts).waste_area
            match best with
            | none => some (layouts, panel_count, waste)
            | some (bl, bpc, bw) =>
              if panel_count < bpc ∨ (panel_count = bpc ∧ waste < bw) then
                some (layouts, panel_count, waste)
              else some (bl, bpc, bw))
        init = some r → GoodState req r.1 by
    exact H strategies none (by simp) (ls, pc, w) h
  intro ss
  induction ss with
  | nil => exact fun init hinit r h => hinit r h
  | cons s rest ih =>
    intro init hinit r hfold
    rw [List.foldl_cons] at hfold
    refine ih _ ?_ r hfold
    intro r' hr'
    rcases hbfd : best_fit_decreasing_optimize req s with e | layouts
    · rw [hbfd] at hr'
      exact hinit r' hr'
    · rw [hbfd] at hr'
      dsimp only at hr'
      have hgood : GoodState req (try_reduce_panels req layouts expanded) :=
        try_reduce_goodState (bfdAux_goodState _ _ _ hbfd (by intro l hl; simp at hl))
      rcases init with _ | b
      · dsimp only at hr'
        injection hr' with hr'
        exact hr' ▸ hgood
      · dsimp only at hr'
        split at hr'
        · injection hr' with hr'
          exact hr' ▸ hgood
        · injection hr' with hr'
          exact hr' ▸ hinit b rfl

theorem optimize_goodState {req : OptimizationRequest} {fuel : Nat}
    {res : OptimizationResult} (h : optimize req fuel = some (.ok res)) :
    GoodState req res.layouts := by
  rw [optimize] at h
  rcases hbs : bestStrategyResult req (expand_items req)
      (generate_sort_strategies (expand_items req)) with _ | ⟨ls, pc, w⟩
  · rw [hbs] at h
    exact absurd h (by simp)
  · rw [hbs] at h
    dsimp only at h
    rcases hta : try_add_optional_items req fuel ls with _ | ⟨finals, used⟩
    · rw [hta] at h
      exact absurd h (by simp)
    · rw [hta] at h
      dsimp only at h
      injection h with h
      injection h with h
      subst h
      intro l' hl'
      simp only [List.mem_map] at hl'
      obtain ⟨l, hl, rfl⟩ := hl'
      exact try_add_goodState hta (bestStrategyResult_goodState hbs) l hl

/-! ## Claim C3: placements stay inside the usable area -/

/-- C3: for every request on which `optimize` succeeds, every placement `p` of
every returned layout satisfies `p.x ≥ trimming`, `p.y ≥ trimming`,
`p.x + p.width ≤ layout.width − trimming` and
`p.y + p.height ≤ layout.height − trimming`, where `trimming` is that
layout's trimming. -/
theorem C3_within_usable_area {req : OptimizationRequest} {fuel : Nat}
    {res : OptimizationResult} (h : optimize req fuel = some (.ok res)) :
    ∀ l ∈ res.layouts, ∀ p ∈ l.placements,
      l.trimming ≤ p.x ∧ l.trimming ≤ p.y ∧
      p.x + p.width ≤ l.width - l.trimming ∧
      p.y + p.height ≤ l.height - l.trimming := by
  intro l hl p hp
  exact ((optimize_goodState h l hl).1).1 p hp

/-- Witness for C3 at a concrete three-item request. -/
theorem C3_within_usable_area_witness :
    optimize exMixedReq 9 = some (.ok exMixedRes) ∧
    (∀ l ∈ exMixedRes.layouts, ∀ p ∈ l.placements,
      l.trimming ≤ p.x ∧ l.trimming ≤ p.y ∧
      p.x + p.width ≤ l.width - l.trimming ∧
      p.y + p.height ≤ l.height - l.trimming) :=
  ⟨by decide, @C3_within_usable_area exMixedReq 9 exMixedRes (by decide)⟩

/-! ## Claim C2: separation of placements -/

/-- C2 (amended): on every returned layout, the kerf-expanded rectangle of
each placement is disjoint from the unexpanded rectangle of every placement
committed after it in the layout's placement list (with no tolerance at all);
consequently, when `cut_width ≥ 0`, the unexpanded rectangles of distinct
placements never overlap. The claim's symmetric version — a later placement's
kerf-expanded rectangle against an earlier placement's rectangle, tolerance
0.5 — is refuted by the counterexample, which exhibits a penetration equal to
the full kerf. -/
theorem C2_sequential_separation {req : OptimizationRequest} {fuel : Nat}
    {res : OptimizationResult} (h : optimize req fuel = some (.ok res)) :
    ∀ l ∈ res.layouts,
      SeqSep req.cut_width l ∧
      (0 ≤ req.cut_width →
        l.placements.Pairwise (fun p q => (origRect p).overlaps (origRect q) = false)) := by
  intro l hl
  have hsep := ((optimize_goodState h l hl).1).2
  refine ⟨hsep, fun hk => ?_⟩
  refine hsep.imp ?_
  intro p q hpq
  refine not_overlaps_of_inside ?_ hpq
  exact ⟨le_refl _, le_refl _, by dsimp [origRect, placedRect]; linarith,
    by dsimp [origRect, placedRect]; linarith⟩

/-- Witness for the amended C2 at a concrete three-item request. -/
theorem C2_sequential_separation_witness :
    optimize exMixedReq 9 = some (.ok exMixedRes) ∧
    (∀ l ∈ exMixedRes.layouts,
      SeqSep exMixedReq.cut_width l ∧
      (0 ≤ exMixedReq.cut_width →
        l.placements.Pairwise (fun p q => (origRect p).overlaps (origRect q) = false))) :=
  ⟨by decide, @C2_sequential_separation exMixedReq 9 exMixedRes (by decide)⟩

/-- C2 counterexample: `optimize` succeeds on `exMixedReq` and returns a layout
whose third placement, expanded by `cut_width = 3` on its right and top, cuts
into the second placement's unexpanded rectangle with penetration depth 3,
far above the claimed tolerance of 0.5. -/
theorem C2_counterexample :
    optimize exMixedReq 9 = some (.ok exMixedRes) ∧
    (exMixedRes.layouts.map (fun l => l.placements))[0]? =
      some [{ item_id := "X", x := 0, y := 0, width := 150, height := 40, rotated := false },
            exMixedPlacedY, exMixedPlacedZ] ∧
    exMixedPlacedZ ≠ exMixedPlacedY ∧
    overlapDepth (placedRect exMixedReq.cut_width exMixedPlacedZ) exMixedPlacedY > 1/2 := by
  decide

/-! ## Item-id conservation through the pipeline (claim C1 machinery) -/

theorem allIds_append_single (ls : List PanelLayout) (L : PanelLayout) :
    allIds (ls ++ [L]) = allIds ls ++ layoutIds L := by
  simp [allIds]

theorem getElem?_lt_length {ls : List PanelLayout} {j : Nat} {t : PanelLayout}
    (h : ls[j]? = some t) : j < ls.length := by
  by_contra hc
  push_neg at hc
  rw [List.getElem?_eq_none hc] at h
  exact absurd h (by simp)

theorem allIds_pushPlacementAt :
    ∀ (ls : List PanelLayout) (j : Nat) (pl : Placement), j < ls.length →
      (allIds (pushPlacementAt ls j pl)).Perm (pl.item_id :: allIds ls) := by
  intro ls
  induction ls with
  | nil => intro j pl hj; exact absurd hj (by simp)
  | cons a rest ih =>
    intro j pl hj
    cases j with
    | zero =>
      show ((a.placements ++ [pl]).map (fun p => p.item_id) ++ allIds rest).Perm
        (pl.item_id :: (layoutIds a ++ allIds rest))
      rw [List.map_append, List.append_assoc]
      exact List.perm_middle
    | succ n =>
      show (layoutIds a ++ allIds (pushPlacementAt rest n pl)).Perm
        (pl.item_id :: (layoutIds a ++ allIds rest))
      have hn : n < rest.length := by simpa using hj
      exact ((ih n pl hn).append_left (layoutIds a)).trans List.perm_middle

theorem bfdAux_ids {req : OptimizationRequest} :
    ∀ (items : List Item) (ls out : List PanelLayout),
      bfdAux req items ls = .ok out →
      (allIds out).Perm (allIds ls ++ items.map (fun i => i.id)) := by
  intro items
  induction items with
  | nil =>
    intro ls out h
    rw [bfdAux] at h
    injection h with h
    subst h
    rw [List.map_nil, List.append_nil]
  | cons item rest ih =>
    intro ls out h
    rw [bfdAux] at h
    rcases hb : bestExistingAux req item ls 0 none with _ | ⟨j, pl, s⟩
    · rw [hb] at h
      rcases hp : place_on_new_panel req item with e | o
      · rw [hp] at h
        exact absurd h (by simp)
      · rw [hp] at h
        match o, hp with
        | none, hp => exact absurd hp (place_on_new_panel_ne_ok_none req item)
        | some (pt, pw, ph, pl), hp =>
          dsimp only at h
          obtain ⟨_, _, s2, hbnpp⟩ := place_on_new_panel_spec hp
          have hid : pl.item_id = item.id :=
            ((best_new_panel_placement_spec hbnpp).2.2).1
          refine (ih _ _ h).trans ?_
          rw [allIds_append_single]
          show ((allIds ls ++ [pl.item_id]) ++ List.map (fun i => i.id) rest).Perm
            (allIds ls ++ List.map (fun i => i.id) (item :: rest))
          rw [List.append_assoc, List.singleton_append, hid, List.map_cons]
    · rw [hb] at h
      obtain ⟨hjlt, l, hl, s0, hfbp⟩ := bestExisting_spec hb
      have hid : pl.item_id = item.id := (find_best_placement_good hfbp).1
      refine (ih _ _ h).trans ?_
      refine ((allIds_pushPlacementAt ls j pl hjlt).append_right _).trans ?_
      rw [List.cons_append, hid]
      exact List.perm_middle.symm

theorem sortBy_perm {α : Type} (c : α → α → Ordering) (l : List α) :
    (sortBy c l).Perm l :=
  List.mergeSort_perm l _

theorem ids_sortBy (c : Item → Item → Ordering) (l : List Item) :
    ((sortBy c l).map (fun i => i.id)).Perm (l.map (fun i => i.id)) :=
  (sortBy_perm c l).map _

theorem normalize_tall_ids (items : List Item) :
    (normalize_tall items).map (fun i => i.id) = items.map (fun i => i.id) := by
  rw [normalize_tall, List.map_map]
  refine List.map_congr_left ?_
  intro x _
  show (if x.can_rotate ∧ x.width > x.height then
      { id := x.id, width := x.height, height := x.width,
        quantity := x.quantity, can_rotate := x.can_rotate } else x).id = x.id
  split <;> rfl

theorem normalize_wide_ids (items : List Item) :
    (normalize_wide items).map (fun i => i.id) = items.map (fun i => i.id) := by
  rw [normalize_wide, List.map_map]
  refine List.map_congr_left ?_
  intro x _
  show (if x.can_rotate ∧ x.height > x.width then
      { id := x.id, width := x.height, height := x.width,
        quantity := x.quantity, can_rotate := x.can_rotate } else x).id = x.id
  split <;> rfl

theorem strategy_ids {items : List Item} {s : List Item}
    (h : s ∈ generate_sort_strategies items) :
    (s.map (fun i => i.id)).Perm (items.map (fun i => i.id)) := by
  rw [generate_sort_strategies] at h
  simp only [List.mem_cons, List.not_mem_nil, or_false] at h
  rcases h with rfl | rfl | rfl | rfl | rfl | rfl
  · exact ids_sortBy _ _
  · exact ids_sortBy _ _
  · exact ids_sortBy _ _
  · exact (ids_sortBy _ _).trans (by rw [normalize_tall_ids])
  · exact (ids_sortBy _ _).trans (by rw [normalize_wide_ids])
  · exact (ids_sortBy _ _).trans (by rw [normalize_tall_ids])

theorem minUsedAux_spec :
    ∀ (ls : List PanelLayout) (i : Nat) (best : Option (Nat × PanelLayout))
      {j : Nat} {t : PanelLayout},
      minUsedAux ls i best = some (j, t) →
      best = some (j, t) ∨ ∃ m, m < ls.length ∧ j = i + m ∧ ls[m]? = some t := by
  intro ls
  induction ls with
  | nil => intro i best j t h; exact Or.inl h
  | cons a rest ih =>
    intro i best j t h
    rw [minUsedAux.eq_def] at h
    dsimp only at h
    rcases ih _ _ h with hbest | ⟨m, hm, hj, hl⟩
    · rcases hb : best with _ | ⟨bi, bl⟩
      · rw [hb] at hbest
        dsimp only at hbest
        injection hbest with hbest
        injection hbest with h1 h2
        subst h1; subst h2
        exact Or.inr ⟨0, by simp, by simp, List.getElem?_cons_zero⟩
      · rw [hb] at hbest
        dsimp only at hbest
        split at hbest
        · injection hbest with hbest
          injection hbest with h1 h2
          subst h1; subst h2
          exact Or.inr ⟨0, by simp, by simp, List.getElem?_cons_zero⟩
        · exact Or.inl hbest
    · exact Or.inr ⟨m + 1, by simpa using hm, by omega, by simpa using hl⟩

theorem minUsed_spec {ls : List PanelLayout} {j : Nat} {t : PanelLayout}
    (h : minUsed ls = some (j, t)) : j < ls.length ∧ ls[j]? = some t := by
  rcases minUsedAux_spec ls 0 none h with hbest | ⟨m, hm, hj, hl⟩
  · exact absurd hbest (by simp)
  · subst hj
    simpa using ⟨hm, hl⟩

theorem allIds_eraseIdx :
    ∀ (ls : List PanelLayout) (i : Nat) {t : PanelLayout}, ls[i]? = some t →
      (allIds ls).Perm (layoutIds t ++ allIds (ls.eraseIdx i)) := by
  intro ls
  induction ls with
  | nil => intro i t h; exact absurd h (by simp)
  | cons a rest ih =>
    intro i t h
    cases i with
    | zero =>
      rw [List.getElem?_cons_zero] at h
      injection h with h
      subst h
      exact List.Perm.refl _
    | succ n =>
      have h2 : rest[n]? = some t := by simpa using h
      show (layoutIds a ++ allIds rest).Perm
        (layoutIds t ++ (layoutIds a ++ allIds (rest.eraseIdx n)))
      refine ((ih n h2).append_left (layoutIds a)).trans ?_
      rw [← List.append_assoc, ← List.append_assoc]
      exact List.perm_append_comm.append_right _

theorem reconstruct_ids (exp : List Item) (ps : List Placement) :
    (ps.map (reconstructItem exp)).map (fun i => i.id) =
      ps.map (fun p => p.item_id) := by
  rw [List.map_map]
  refine List.map_congr_left ?_
  intro p _
  rfl

theorem redistribute_ids {req : OptimizationRequest} :
    ∀ (items : List Item) (ls out : List PanelLayout),
      redistribute req items ls = some out →
      (allIds out).Perm (allIds ls ++ items.map (fun i => i.id)) := by
  intro items
  induction items with
  | nil =>
    intro ls out h
    rw [redistribute] at h
    injection h with h
    subst h
    rw [List.map_nil, List.append_nil]
  | cons item rest ih =>
    intro ls out h
    rw [redistribute] at h
    rcases hb : bestExistingAux req item ls 0 none with _ | ⟨j, pl, s⟩
    · rw [hb] at h
      exact absurd h (by simp)
    · rw [hb] at h
      obtain ⟨hjlt, l, hl, s0, hfbp⟩ := bestExisting_spec hb
      have hid : pl.item_id = item.id := (find_best_placement_good hfbp).1
      refine (ih _ _ h).trans ?_
      refine ((allIds_pushPlacementAt ls j pl hjlt).append_right _).trans ?_
      rw [List.cons_append, hid]
      exact List.perm_middle.symm

theorem reduceLoop_ids {req : OptimizationRequest} {expanded : List Item} :
    ∀ (fuel : Nat) (ls : List PanelLayout),
      (allIds (reduceLoop req expanded fuel ls)).Perm (allIds ls) := by
  intro fuel
  induction fuel with
  | zero => intro ls; rw [reduceLoop]
  | succ n ih =>
    intro ls
    rw [reduceLoop]
    split
    · exact List.Perm.refl _
    · rcases hmin : minUsed ls with _ | ⟨min_idx, target⟩
      · exact List.Perm.refl _
      · dsimp only
        rcases hred : redistribute req
            (sortBy cmpAreaDesc (target.placements.map (reconstructItem expanded)))
            (ls.eraseIdx min_idx) with _ | new_layouts
        · exact List.Perm.refl _
        · dsimp only
          refine (ih new_layouts).trans ?_
          refine (redistribute_ids _ _ _ hred).trans ?_
          obtain ⟨hlt, hget⟩ := minUsed_spec hmin
          have h2 : ((sortBy cmpAreaDesc
              (target.placements.map (reconstructItem expanded))).map
                (fun i => i.id)).Perm (layoutIds target) := by
            refine (ids_sortBy _ _).trans ?_
            rw [reconstruct_ids]
            exact List.Perm.refl _
          refine (h2.append_left (allIds (ls.eraseIdx min_idx))).trans ?_
          exact (List.perm_append_comm.trans (allIds_eraseIdx ls min_idx hget).symm)

theorem renumberAux_ids :
    ∀ (ls : List PanelLayout) (counts : List (String × Nat)),
      allIds (renumberAux ls counts) = allIds ls := by
  intro ls
  induction ls with
  | nil => intro counts; rfl
  | cons a rest ih =>
    intro counts
    rw [renumberAux]
    show layoutIds a ++
        allIds (renumberAux rest (bumpCount counts a.panel_type_id).2) =
      layoutIds a ++ allIds rest
    rw [ih]

theorem try_reduce_ids {req : OptimizationRequest} {ls : List PanelLayout}
    {expanded : List Item} :
    (allIds (try_reduce_panels req ls expanded)).Perm (allIds ls) := by
  rw [try_reduce_panels]
  split
  · exact List.Perm.refl _
  · rw [renumber_panels, renumberAux_ids]
    exact reduceLoop_ids _ _

theorem mem_optional_pool {req : OptimizationRequest}
    {entry : String × OptionalItem} (h : entry ∈ optional_pool req) :
    ∃ pt ∈ req.panel_types, entry.1 = pt.id ∧ entry.2 ∈ pt.optional_items := by
  rw [optional_pool] at h
  have h2 := (sortBy_perm _ _).mem_iff.mp h
  simp only [List.mem_flatMap, List.mem_map] at h2
  obtain ⟨pt, hpt, item, hitem, heq⟩ := h2
  subst heq
  exact ⟨pt, hpt, rfl, hitem⟩

theorem optionalLoop_ids {req : OptimizationRequest} {panel_count : Nat}
    {pool : List (String × OptionalItem)} :
    ∀ (fuel : Nat) (ls : List PanelLayout) (used : List String)
      {out : List PanelLayout} {used2 : List String},
      optionalLoop req panel_count pool fuel ls used = some (out, used2) →
      ∃ t, used2 = used ++ t ∧ (allIds out).Perm (allIds ls ++ t) ∧
        ∀ id ∈ t, ∃ entry ∈ pool, id = entry.2.id := by
  intro fuel
  induction fuel with
  | zero =>
    intro ls used out used2 h
    exact absurd h (by rw [optionalLoop]; simp)
  | succ n ih =>
    intro ls used out used2 h
    rw [optionalLoop] at h
    rcases hp : optionalPass req panel_count pool ls with _ | ⟨new_layouts, id⟩
    · rw [hp] at h
      dsimp only at h
      injection h with h
      injection h with h1 h2
      subst h1; subst h2
      exact ⟨[], (List.append_nil used).symm, by rw [List.append_nil],
        fun x hx => absurd hx (by simp)⟩
    · rw [hp] at h
      dsimp only at h
      obtain ⟨entry, hentry, hid, j, layout, pl, hj, htpi, rfl⟩ := optionalPass_spec hp
      obtain ⟨t, ht, hperm, hsrc⟩ := ih _ _ h
      refine ⟨id :: t, by rw [ht, List.append_assoc, List.singleton_append], ?_, ?_⟩
      · refine hperm.trans ?_
        have hjlt : j < ls.length := getElem?_lt_length hj
        have hplid : pl.item_id = id := by
          rw [(try_place_item_good htpi).1, hid]
          rfl
        refine ((allIds_pushPlacementAt ls j pl hjlt).append_right t).trans ?_
        rw [List.cons_append, hplid]
        exact List.perm_middle.symm
      · intro x hx
        rcases List.mem_cons.mp hx with rfl | hx
        · exact ⟨entry, hentry, hid⟩
        · exact hsrc x hx

theorem try_add_ids {req : OptimizationRequest} {fuel : Nat}
    {ls out : List PanelLayout} {used : List String}
    (h : try_add_optional_items req fuel ls = some (out, used)) :
    (allIds out).Perm (allIds ls ++ used) ∧
      ∀ id ∈ used, ∃ pt ∈ req.panel_types, ∃ o ∈ pt.optional_items, id = o.id := by
  rw [try_add_optional_items] at h
  split at h
  · injection h with h
    injection h with h1 h2
    subst h1; subst h2
    exact ⟨by rw [List.append_nil], by simp⟩
  · dsimp only at h
    split at h
    · injection h with h
      injection h with h1 h2
      subst h1; subst h2
      exact ⟨by rw [List.append_nil], by simp⟩
    · obtain ⟨t, ht, hperm, hsrc⟩ := optionalLoop_ids _ _ _ h
      rw [ht]
      simp only [List.nil_append]
      refine ⟨hperm, ?_⟩
      intro id hid
      obtain ⟨entry, hentry, heq⟩ := hsrc id hid
      obtain ⟨pt, hpt, _, hoi⟩ := mem_optional_pool hentry
      exact ⟨pt, hpt, entry.2, hoi, heq⟩

theorem bestStrategyResult_ids {req : OptimizationRequest}
    {expanded : List Item} {strategies : List (List Item)}
    {ls : List PanelLayout} {pc : Nat} {w : ℚ}
    (hstrat : ∀ s ∈ strategies,
      (s.map (fun i => i.id)).Perm (expanded.map (fun i => i.id)))
    (h : bestStrategyResult req expanded strategies = some (ls, pc, w)) :
    (allIds ls).Perm (expanded.map (fun i => i.id)) := by
  rw [bestStrategyResult] at h
  suffices H : ∀ (ss : List (List Item)), (∀ s ∈ ss, s ∈ strategies) →
      ∀ (init : Option (List PanelLayout × Nat × ℚ)),
      (∀ r, init = some r → (allIds r.1).Perm (expanded.map (fun i => i.id))) →
      ∀ r, ss.foldl
        (fun best sorted_items =>
          match best_fit_decreasing_optimize req sorted_items with
          | .error _ => best
          | .ok layouts =>
            let layouts := try_reduce_panels req layouts expanded
            let panel_count := layouts.length
            let waste := (calculate_summary req layouts).waste_area
            match best with
            | none => some (layouts, panel_count, waste)
            | some (bl, bpc, bw) =>
              if panel_count < bpc ∨ (panel_count = bpc ∧ waste < bw) then
                some (layouts, panel_count, waste)
              else some (bl, bpc, bw))
        init = some r → (allIds r.1).Perm (expanded.map (fun i => i.id)) by
    exact H strategies (fun _ hs => hs) none (by simp) (ls, pc, w) h
  intro ss
  induction ss with
  | nil => exact fun _ init hinit r h => hinit r h
  | cons s rest ih =>
    intro hsub init hinit r hfold
    rw [List.foldl_cons] at hfold
    refine ih (fun x hx => hsub x (List.mem_cons_of_mem s hx)) _ ?_ r hfold
    intro r' hr'
    rcases hbfd : best_fit_decreasing_optimize req s with e | layouts
    · rw [hbfd] at hr'
      exact hinit r' hr'
    · rw [hbfd] at hr'
      dsimp only at hr'
      have hperm : (allIds (try_reduce_panels req layouts expanded)).Perm
          (expanded.map (fun i => i.id)) := by
        refine try_reduce_ids.trans ?_
        refine (bfdAux_ids _ _ _ hbfd).trans ?_
        show (s.map (fun i => i.id)).Perm (expanded.map (fun i => i.id))
        exact hstrat s (hsub s (List.mem_cons_self s rest))
      rcases init with _ | b
      · dsimp only at hr'
        injection hr' with hr'
        exact hr' ▸ hperm
      · dsimp only at hr'
        split at hr'
        · injection hr' with hr'
          exact hr' ▸ hperm
        · injection hr' with hr'
          exact hr' ▸ hinit b rfl

theorem allIds_map_areas (req : OptimizationRequest) (ls : List PanelLayout) :
    allIds (ls.map
      (fun l => { l with unused_areas := compute_output_unused_areas req l })) =
      allIds ls := by
  induction ls with
  | nil => rfl
  | cons a rest ih =>
    show layoutIds a ++ allIds (rest.map
        (fun l => { l with unused_areas := compute_output_unused_areas req l })) =
      layoutIds a ++ allIds rest
    rw [ih]

theorem optimize_ids {req : OptimizationRequest} {fuel : Nat}
    {res : OptimizationResult} (h : optimize req fuel = some (.ok res)) :
    (allIds res.layouts).Perm
      ((expand_items req).map (fun i => i.id) ++ res.optional_items_used) ∧
    ∀ id ∈ res.optional_items_used,
      ∃ pt ∈ req.panel_types, ∃ o ∈ pt.optional_items, id = o.id := by
  rw [optimize] at h
  rcases hbs : bestStrategyResult req (expand_items req)
      (generate_sort_strategies (expand_items req)) with _ | ⟨ls, pc, w⟩
  · rw [hbs] at h
    exact absurd h (by simp)
  · rw [hbs] at h
    dsimp only at h
    rcases hta : try_add_optional_items req fuel ls with _ | ⟨finals, used⟩
    · rw [hta] at h
      exact absurd h (by simp)
    · rw [hta] at h
      dsimp only at h
      injection h with h
      injection h with h
      subst h
      dsimp only
      rw [allIds_map_areas]
      obtain ⟨hperm, hsrc⟩ := try_add_ids hta
      have hbase : (allIds ls).Perm ((expand_items req).map (fun i => i.id)) :=
        bestStrategyResult_ids (fun s hs => strategy_ids hs) hbs
      exact ⟨hperm.trans (hbase.append_right used), hsrc⟩

/-! ## Claim C1: every expanded item is placed exactly once -/

/-- C1: for every request on which `optimize` succeeds, the multiset of
placement item ids across all returned layouts equals the multiset of expanded
item ids together with the recorded optional-item ids (the backfill only adds
optional-item placements); in particular, when no optional items were used,
every expanded item id appears in exactly one placement — through the BFD
pass, the panel-reduction pass and the optional backfill. -/
theorem C1_item_conservation {req : OptimizationRequest} {fuel : Nat}
    {res : OptimizationResult} (h : optimize req fuel = some (.ok res)) :
    (allIds res.layouts).Perm
      ((expand_items req).map (fun i => i.id) ++ res.optional_items_used) ∧
    (res.optional_items_used = [] →
      (allIds res.layouts).Perm ((expand_items req).map (fun i => i.id))) := by
  obtain ⟨hperm, _⟩ := optimize_ids h
  refine ⟨hperm, fun hu => ?_⟩
  rw [hu, List.append_nil] at hperm
  exact hperm

/-- Witness for C1 at a concrete three-item request. -/
theorem C1_item_conservation_witness :
    optimize exMixedReq 9 = some (.ok exMixedRes) ∧
    ((allIds exMixedRes.layouts).Perm
      ((expand_items exMixedReq).map (fun i => i.id) ++
        exMixedRes.optional_items_used) ∧
    (exMixedRes.optional_items_used = [] →
      (allIds exMixedRes.layouts).Perm
        ((expand_items exMixedReq).map (fun i => i.id)))) :=
  ⟨by decide, @C1_item_conservation exMixedReq 9 exMixedRes (by decide)⟩

/-! ## Claim C5 machinery: the exact CannotFitAll condition -/

theorem validatePanels_pos :
    ∀ (pts : List PanelType), validatePanels pts = none →
      ∀ pt ∈ pts,
        0 < pt.width - pt.trimming * 2 ∧ 0 < pt.height - pt.trimming * 2 := by
  intro pts
  induction pts with
  | nil => intro _ pt hpt; exact absurd hpt (by simp)
  | cons p rest ih =>
    intro h pt hpt
    rw [validatePanels] at h
    split at h
    case isTrue => exact absurd h (by simp)
    case isFalse =>
      split at h
      case isTrue => exact absurd h (by simp)
      case isFalse h2 =>
        rcases List.mem_cons.mp hpt with rfl | hpt2
        · push_neg at h2
          exact h2
        · exact ih h pt hpt2

theorem validate_pos {req : OptimizationRequest} (hv : validate req = none) :
    ∀ pt ∈ req.panel_types,
      0 < pt.width - pt.trimming * 2 ∧ 0 < pt.height - pt.trimming * 2 := by
  rw [validate] at hv
  split at hv
  · exact absurd hv (by simp)
  · split at hv
    · exact absurd hv (by simp)
    · exact validatePanels_pos _ hv

theorem orientations_pos {pt : PanelType}
    (h1 : 0 < pt.width - pt.trimming * 2) (h2 : 0 < pt.height - pt.trimming * 2) :
    ∀ o ∈ orientationsOf pt,
      0 < o.1 - pt.trimming * 2 ∧ 0 < o.2 - pt.trimming * 2 := by
  intro o ho
  rw [orientationsOf] at ho
  split at ho <;>
    simp only [List.mem_cons, List.mem_singleton, List.not_mem_nil, or_false] at ho
  · subst ho
    exact ⟨h1, h2⟩
  · rcases ho with rfl | rfl
    · exact ⟨h1, h2⟩
    · exact ⟨h2, h1⟩

theorem newPanelFold_none_iff_unfit {req : OptimizationRequest} {item : Item}
    (hpos : ∀ pt ∈ req.panel_types,
      0 < pt.width - pt.trimming * 2 ∧ 0 < pt.height - pt.trimming * 2) :
    newPanelFold req item = none ↔ ¬ FitsConsidered req item := by
  rw [newPanelFold_none_iff]
  constructor
  · intro h hfc
    obtain ⟨pt, hpt, o, ho, hfd⟩ := hfc
    have hnone := best_new_panel_placement_none_iff.mp (h pt hpt o ho)
    obtain ⟨hp1, hp2⟩ := orientations_pos (hpos pt hpt).1 (hpos pt hpt).2 o ho
    rcases hnone with (hle | hle) | hnf
    · linarith
    · linarith
    · exact hnf hfd
  · intro h pt hpt o ho
    exact best_new_panel_placement_none_iff.mpr
      (Or.inr (fun hfd => h ⟨pt, hpt, o, ho, hfd⟩))

theorem fitsConsidered_of_fbp {req : OptimizationRequest} {item : Item}
    {l : PanelLayout} {pl : Placement} {s : ℚ}
    (hfr : LayoutFromReq req l)
    (h : find_best_placement req item l = some (pl, s)) :
    FitsConsidered req item := by
  obtain ⟨area, hmem, hpfa⟩ := find_best_placement_spec h
  obtain ⟨hin, _⟩ := mem_find_unused_areas hmem
  obtain ⟨pt, hpt, htr, horient⟩ := hfr
  obtain ⟨_, _, _, hw, hh, hdims⟩ := hpfa
  refine ⟨pt, hpt, (l.width, l.height), horient, ?_⟩
  dsimp only
  obtain ⟨hx, hy, hxe, hye⟩ := hin
  dsimp [usableRect] at hx hy hxe hye
  have haw : area.width ≤ l.width - l.trimming * 2 := by linarith
  have hah : area.height ≤ l.height - l.trimming * 2 := by linarith
  rw [← htr]
  unfold FitsDims
  rcases hdims with ⟨hw2, hh2⟩ | ⟨hrot, hw2, hh2⟩
  · refine Or.inl ⟨?_, ?_⟩
    · rw [← hw2]; linarith
    · rw [← hh2]; linarith
  · refine Or.inr ⟨hrot, ?_, ?_⟩
    · rw [← hw2]; linarith
    · rw [← hh2]; linarith

theorem place_on_new_panel_error_elim {req : OptimizationRequest} {item : Item}
    {e : OptimizerError} (h : place_on_new_panel req item = .error e) :
    e = .cannotFitAll ∧ newPanelFold req item = none := by
  rw [place_on_new_panel] at h
  rcases hf : newPanelFold req item with _ | ⟨pt, pw, ph, pl, s, cap⟩
  · rw [hf] at h
    dsimp only at h
    injection h with h
    exact ⟨h.symm, rfl⟩
  · rw [hf] at h
    exact absurd h (by simp)

theorem bfdAux_error_of_unfit {req : OptimizationRequest} :
    ∀ (items : List Item) (ls : List PanelLayout), GoodState req ls →
      (∃ it ∈ items, ¬ FitsConsidered req it) →
      bfdAux req items ls = .error .cannotFitAll := by
  intro items
  induction items with
  | nil =>
    intro ls _ hex
    obtain ⟨it, hit, _⟩ := hex
    exact absurd hit (by simp)
  | cons item rest ih =>
    intro ls hg hex
    rw [bfdAux]
    by_cases hfc : FitsConsidered req item
    · have hrest : ∃ it ∈ rest, ¬ FitsConsidered req it := by
        obtain ⟨it, hit, hnf⟩ := hex
        rcases List.mem_cons.mp hit with rfl | hit2
        · exact absurd hfc hnf
        · exact ⟨it, hit2, hnf⟩
      rcases hb : bestExistingAux req item ls 0 none with _ | ⟨j, pl, s⟩
      · dsimp only
        rcases hp : place_on_new_panel req item with e | o
        · dsimp only
          rw [(place_on_new_panel_error_elim hp).1]
        · match o, hp with
          | none, hp => exact absurd hp (place_on_new_panel_ne_ok_none req item)
          | some (pt, pw, ph, pl), hp =>
            dsimp only
            refine ih _ ?_ hrest
            intro l' hl'
            rcases List.mem_append.mp hl' with hmem | hmem
            · exact hg l' hmem
            · rw [List.mem_singleton] at hmem
              subst hmem
              obtain ⟨hptmem, horient, s2, hbnpp⟩ := place_on_new_panel_spec hp
              have hnpp := (best_new_panel_placement_spec hbnpp).2.2
              exact ⟨goodLayout_new_panel hnpp _ _, pt, hptmem, rfl, horient⟩
      · dsimp only
        exact ih _ (goodState_push hg hb) hrest
    · have hbnone : bestExistingAux req item ls 0 none = none := by
        rcases hb : bestExistingAux req item ls 0 none with _ | ⟨j, pl, s⟩
        · rfl
        · obtain ⟨hjlt, l, hl, s0, hfbp⟩ := bestExisting_spec hb
          exact absurd
            (fitsConsidered_of_fbp (hg l (List.getElem?_mem hl)).2 hfbp) hfc
      rw [hbnone]
      have hfold : newPanelFold req item = none := by
        rw [newPanelFold_none_iff]
        intro pt hpt o ho
        exact best_new_panel_placement_none_iff.mpr
          (Or.inr (fun hfd => hfc ⟨pt, hpt, o, ho, hfd⟩))
      rw [place_on_new_panel_error_iff.mpr hfold]

theorem bfdAux_error_elim {req : OptimizationRequest} :
    ∀ (items : List Item) (ls : List PanelLayout) {e : OptimizerError},
      bfdAux req items ls = .error e →
      e = .cannotFitAll ∧ ∃ it ∈ items, newPanelFold req it = none := by
  intro items
  induction items with
  | nil =>
    intro ls e h
    rw [bfdAux] at h
    exact absurd h (by simp)
  | cons item rest ih =>
    intro ls e h
    rw [bfdAux] at h
    rcases hb : bestExistingAux req item ls 0 none with _ | ⟨j, pl, s⟩
    · rw [hb] at h
      rcases hp : place_on_new_panel req item with e2 | o
      · rw [hp] at h
        dsimp only at h
        injection h with h
        subst h
        obtain ⟨he, hf⟩ := place_on_new_panel_error_elim hp
        exact ⟨he, item, List.mem_cons_self item rest, hf⟩
      · rw [hp] at h
        match o, hp with
        | none, hp => exact absurd hp (place_on_new_panel_ne_ok_none req item)
        | some (pt, pw, ph, pl), hp =>
          dsimp only at h
          obtain ⟨he, it, hit, hf⟩ := ih _ h
          exact ⟨he, it, List.mem_cons_of_mem item hit, hf⟩
    · rw [hb] at h
      obtain ⟨he, it, hit, hf⟩ := ih _ h
      exact ⟨he, it, List.mem_cons_of_mem item hit, hf⟩

theorem bestStrategyResult_none_iff {req : OptimizationRequest}
    {expanded : List Item} {strategies : List (List Item)} :
    bestStrategyResult req expanded strategies = none ↔
      ∀ s ∈ strategies, ∃ e, best_fit_decreasing_optimize req s = .error e := by
  rw [bestStrategyResult]
  have H : ∀ (ss : List (List Item)) (init : Option (List PanelLayout × Nat × ℚ)),
      ss.foldl
        (fun best sorted_items =>
          match best_fit_decreasing_optimize req sorted_items with
          | .error _ => best
          | .ok layouts =>
            let layouts := try_reduce_panels req layouts expanded
            let panel_count := layouts.length
            let waste := (calculate_summary req layouts).waste_area
            match best with
            | none => some (layouts, panel_count, waste)
            | some (bl, bpc, bw) =>
              if panel_count < bpc ∨ (panel_count = bpc ∧ waste < bw) then
                some (layouts, panel_count, waste)
              else some (bl, bpc, bw))
        init = none ↔
      (init = none ∧ ∀ s ∈ ss, ∃ e, best_fit_decreasing_optimize req s = .error e) := by
    intro ss
    induction ss with
    | nil => intro init; simp
    | cons s rest ih =>
      intro init
      rw [List.foldl_cons, ih]
      rcases hbfd : best_fit_decreasing_optimize req s with e | layouts
      · simp only [hbfd]
        constructor
        · rintro ⟨h1, h2⟩
          refine ⟨h1, fun s' hs' => ?_⟩
          rcases List.mem_cons.mp hs' with rfl | hs2
          · exact ⟨e, hbfd⟩
          · exact h2 s' hs2
        · rintro ⟨h1, h2⟩
          exact ⟨h1, fun s' hs' => h2 s' (List.mem_cons_of_mem s hs')⟩
      · simp only [hbfd]
        rcases init with _ | b
        · dsimp only
          constructor
          · rintro ⟨h1, _⟩
            exact absurd h1 (by simp)
          · rintro ⟨_, h2⟩
            obtain ⟨e, he⟩ := h2 s (List.mem_cons_self s rest)
            rw [hbfd] at he
            exact absurd he (by simp)
        · dsimp only
          constructor
          · rintro ⟨h1, _⟩
            split at h1 <;> exact absurd h1 (by simp)
          · rintro ⟨h1, _⟩
            exact absurd h1 (by simp)
  rw [H]
  simp

theorem optimize_error_elim {req : OptimizationRequest} {fuel : Nat}
    {e : OptimizerError} (h : optimize req fuel = some (.error e)) :
    e = .cannotFitAll ∧
      bestStrategyResult req (expand_items req)
        (generate_sort_strategies (expand_items req)) = none := by
  rw [optimize] at h
  rcases hbs : bestStrategyResult req (expand_items req)
      (generate_sort_strategies (expand_items req)) with _ | ⟨ls, pc, w⟩
  · rw [hbs] at h
    dsimp only at h
    injection h with h
    injection h with h
    exact ⟨h.symm, rfl⟩
  · rw [hbs] at h
    dsimp only at h
    rcases hta : try_add_optional_items req fuel ls with _ | ⟨finals, used⟩
    · rw [hta] at h
      exact absurd h (by simp)
    · rw [hta] at h
      dsimp only at h
      exact absurd h (by simp)

theorem optimize_error_intro {req : OptimizationRequest} {fuel : Nat}
    (h : bestStrategyResult req (expand_items req)
      (generate_sort_strategies (expand_items req)) = none) :
    optimize req fuel = some (.error .cannotFitAll) := by
  rw [optimize, h]

theorem fitsConsidered_swap {req : OptimizationRequest} {x : Item}
    (hrot : x.can_rotate = true)
    (h : FitsConsidered req
      { id := x.id, width := x.height, height := x.width,
        quantity := x.quantity, can_rotate := x.can_rotate }) :
    FitsConsidered req x := by
  obtain ⟨pt, hpt, o, ho, hfd⟩ := h
  refine ⟨pt, hpt, o, ho, ?_⟩
  unfold FitsDims at hfd ⊢
  dsimp at hfd
  rcases hfd with ⟨h1, h2⟩ | ⟨_, h1, h2⟩
  · exact Or.inr ⟨hrot, h1, h2⟩
  · exact Or.inl ⟨h1, h2⟩

theorem normOne_tall_unfit {req : OptimizationRequest} {x : Item}
    (hnf : ¬ FitsConsidered req x) :
    ¬ FitsConsidered req (if x.can_rotate ∧ x.width > x.height then
      { id := x.id, width := x.height, height := x.width,
        quantity := x.quantity, can_rotate := x.can_rotate } else x) := by
  split
  case isTrue hc => exact fun hfc => hnf (fitsConsidered_swap hc.1 hfc)
  case isFalse => exact hnf

theorem normOne_wide_unfit {req : OptimizationRequest} {x : Item}
    (hnf : ¬ FitsConsidered req x) :
    ¬ FitsConsidered req (if x.can_rotate ∧ x.height > x.width then
      { id := x.id, width := x.height, height := x.width,
        quantity := x.quantity, can_rotate := x.can_rotate } else x) := by
  split
  case isTrue hc => exact fun hfc => hnf (fitsConsidered_swap hc.1 hfc)
  case isFalse => exact hnf

theorem strategies_unfit {req : OptimizationRequest} {item : Item}
    (hitem : item ∈ expand_items req) (hnf : ¬ FitsConsidered req item) :
    ∀ s ∈ generate_sort_strategies (expand_items req),
      ∃ it ∈ s, ¬ FitsConsidered req it := by
  intro s hs
  rw [generate_sort_strategies] at hs
  simp only [List.mem_cons, List.not_mem_nil, or_false] at hs
  have base : ∃ it ∈ expand_items req, ¬ FitsConsidered req it := ⟨item, hitem, hnf⟩
  have tall : ∃ it ∈ normalize_tall (expand_items req), ¬ FitsConsidered req it := by
    rw [normalize_tall]
    exact ⟨_, List.mem_map_of_mem _ hitem, normOne_tall_unfit hnf⟩
  have wide : ∃ it ∈ normalize_wide (expand_items req), ¬ FitsConsidered req it := by
    rw [normalize_wide]
    exact ⟨_, List.mem_map_of_mem _ hitem, normOne_wide_unfit hnf⟩
  have hsort : ∀ (c : Item → Item → Ordering) (l : List Item),
      (∃ it ∈ l, ¬ FitsConsidered req it) →
      ∃ it ∈ sortBy c l, ¬ FitsConsidered req it := by
    intro c l hl
    obtain ⟨it, hit, hn⟩ := hl
    exact ⟨it, (sortBy_perm c l).mem_iff.mpr hit, hn⟩
  rcases hs with rfl | rfl | rfl | rfl | rfl | rfl
  · exact hsort _ _ base
  · exact hsort _ _ base
  · exact hsort _ _ base
  · exact hsort _ _ tall
  · exact hsort _ _ wide
  · exact hsort _ _ tall

/-! ## Claim C5: the CannotFitAll error condition -/

/-- C5 (amended): for every request passing validation, `optimize` only ever
fails with `CannotFitAll`, and it fails exactly when some expanded item does
not fit the usable area of any panel type in any orientation the code
actually considers (`orientationsOf`, which skips the swapped orientation of
near-square panels). The claim's condition — both panel orientations always —
is refuted by `C5_counterexample`. -/
theorem C5_cannot_fit_iff {req : OptimizationRequest} {fuel : Nat}
    (hv : validate req = none) :
    (∀ e, optimize req fuel = some (.error e) → e = .cannotFitAll) ∧
    (optimize req fuel = some (.error .cannotFitAll) ↔
      ∃ item ∈ expand_items req, ¬ FitsConsidered req item) := by
  have hpos := validate_pos hv
  refine ⟨fun e he => (optimize_error_elim he).1, ?_, ?_⟩
  · intro h
    have hall := bestStrategyResult_none_iff.mp (optimize_error_elim h).2
    have h1 : sortBy cmpAreaDesc (expand_items req) ∈
        generate_sort_strategies (expand_items req) := by
      rw [generate_sort_strategies]
      exact List.mem_cons_self _ _
    obtain ⟨e, he⟩ := hall _ h1
    obtain ⟨_, it, hit, hf⟩ := bfdAux_error_elim _ _ he
    exact ⟨it, (sortBy_perm _ _).mem_iff.mp hit,
      (newPanelFold_none_iff_unfit hpos).mp hf⟩
  · intro h
    obtain ⟨item, hitem, hnf⟩ := h
    refine optimize_error_intro (bestStrategyResult_none_iff.mpr ?_)
    intro s hs
    exact ⟨.cannotFitAll, bfdAux_error_of_unfit _ _ (by intro l hl; simp at hl)
      (strategies_unfit hitem hnf s hs)⟩

/-- Witness for C5 at a request whose single item exceeds the panel in both
orientations. -/
theorem C5_cannot_fit_iff_witness :
    validate exBigItemReq = none ∧
    ((∀ e, optimize exBigItemReq 9 = some (.error e) → e = .cannotFitAll) ∧
     (optimize exBigItemReq 9 = some (.error .cannotFitAll) ↔
       ∃ item ∈ expand_items exBigItemReq, ¬ FitsConsidered exBigItemReq item)) :=
  ⟨by decide, @C5_cannot_fit_iff exBigItemReq 9 (by decide)⟩

/-- C5 counterexample: a validated request on a near-square panel (width and
height differing by less than `f64::EPSILON`) whose item fits the swapped
panel orientation; the code skips that orientation, so `optimize` returns
`CannotFitAll` even though the claim's condition does not hold. -/
theorem C5_counterexample :
    validate exSquareReq = none ∧
    optimize exSquareReq 9 = some (.error .cannotFitAll) ∧
    ¬ SpecCannotFit exSquareReq := by
  decide

/-! ## Claim C7 machinery: exact-fit single item -/

theorem sortBy_singleton {α : Type} (c : α → α → Ordering) (x : α) :
    sortBy c [x] = [x] :=
  List.perm_singleton.mp (sortBy_perm c [x])

theorem gss_singleton {x : Item} (hrot : x.can_rotate = false) :
    generate_sort_strategies [x] = [[x], [x], [x], [x], [x], [x]] := by
  have hnt : normalize_tall [x] = [x] := by simp [normalize_tall, hrot]
  have hnw : normalize_wide [x] = [x] := by simp [normalize_wide, hrot]
  rw [generate_sort_strategies, hnt, hnw]
  simp only [sortBy_singleton]

theorem orientations_mul {pt : PanelType} :
    ∀ o ∈ orientationsOf pt, o.1 * o.2 = pt.width * pt.height := by
  intro o ho
  rw [orientationsOf] at ho
  split at ho <;>
    simp only [List.mem_cons, List.mem_singleton, List.not_mem_nil, or_false] at ho
  · subst ho; rfl
  · rcases ho with rfl | rfl
    · rfl
    · exact mul_comm _ _

theorem bfd_single_new {req : OptimizationRequest} {x : Item} {pt : PanelType}
    {pw ph : ℚ} {pl : Placement}
    (hpl : place_on_new_panel req x = .ok (some (pt, pw, ph, pl))) :
    bfdAux req [x] [] = .ok
      [{ panel_type_id := pt.id, panel_number := 1, width := pw, height := ph,
         trimming := pt.trimming, placements := [pl], unused_areas := [] }] := by
  rw [bfdAux]
  rw [show bestExistingAux req x [] 0 none = none from rfl]
  rw [hpl]
  dsimp only
  rw [bfdAux]
  simp

theorem optional_pool_empty {req : OptimizationRequest}
    (h : ∀ pt ∈ req.panel_types, pt.optional_items = []) :
    optional_pool req = [] := by
  rw [optional_pool]
  have hflat : ∀ (pts : List PanelType), (∀ pt ∈ pts, pt.optional_items = []) →
      pts.flatMap (fun panel_type =>
        panel_type.optional_items.map (fun item => (panel_type.id, item))) = [] := by
    intro pts
    induction pts with
    | nil => intro _; rfl
    | cons a rest ih =>
      intro hpts
      rw [List.flatMap_cons, hpts a (List.mem_cons_self a rest), List.map_nil,
        List.nil_append]
      exact ih (fun q hq => hpts q (List.mem_cons_of_mem a hq))
  rw [hflat req.panel_types h]
  exact (sortBy_perm _ _).eq_nil

theorem try_add_empty_pool {req : OptimizationRequest} {fuel : Nat}
    {ls : List PanelLayout} (h : optional_pool req = []) :
    try_add_optional_items req fuel ls = some (ls, []) := by
  rw [try_add_optional_items]
  split
  · rfl
  · dsimp only
    rw [if_pos h]

theorem bestStrategyResult_pred {req : OptimizationRequest}
    {expanded : List Item} {strategies : List (List Item)}
    (Q : List PanelLayout → Prop)
    (hstrat : ∀ s ∈ strategies, ∀ out,
      best_fit_decreasing_optimize req s = .ok out →
      Q (try_reduce_panels req out expanded)) :
    ∀ {ls : List PanelLayout} {pc : Nat} {w : ℚ},
      bestStrategyResult req expanded strategies = some (ls, pc, w) → Q ls := by
  intro ls pc w h
  rw [bestStrategyResult] at h
  suffices H : ∀ (ss : List (List Item)), (∀ s ∈ ss, s ∈ strategies) →
      ∀ (init : Option (List PanelLayout × Nat × ℚ)),
      (∀ r, init = some r → Q r.1) →
      ∀ r, ss.foldl
        (fun best sorted_items =>
          match best_fit_decreasing_optimize req sorted_items with
          | .error _ => best
          | .ok layouts =>
            let layouts := try_reduce_panels req layouts expanded
            let panel_count := layouts.length
            let waste := (calculate_summary req layouts).waste_area
            match best with
            | none => some (layouts, panel_count, waste)
            | some (bl, bpc, bw) =>
              if panel_count < bpc ∨ (panel_count = bpc ∧ waste < bw) then
                some (layouts, panel_count, waste)
              else some (bl, bpc, bw))
        init = some r → Q r.1 by
    exact H strategies (fun _ hs => hs) none (by simp) (ls, pc, w) h
  intro ss
  induction ss with
  | nil => exact fun _ init hinit r h => hinit r h
  | cons s rest ih =>
    intro hsub init hinit r hfold
    rw [List.foldl_cons] at hfold
    refine ih (fun y hy => hsub y (List.mem_cons_of_mem s hy)) _ ?_ r hfold
    intro r' hr'
    rcases hbfd : best_fit_decreasing_optimize req s with e | layouts
    · rw [hbfd] at hr'
      exact hinit r' hr'
    · rw [hbfd] at hr'
      dsimp only at hr'
      have hq : Q (try_reduce_panels req layouts expanded) :=
        hstrat s (hsub s (List.mem_cons_self s rest)) layouts hbfd
      rcases init with _ | b
      · dsimp only at hr'
        injection hr' with hr'
        exact hr' ▸ hq
      · dsimp only at hr'
        split at hr'
        · injection hr' with hr'
          exact hr' ▸ hq
        · injection hr' with hr'
          exact hr' ▸ hinit b rfl

theorem summary_single {req : OptimizationRequest} {L : PanelLayout} {p : Placement}
    (hp : L.placements = [p]) :
    (calculate_summary req [L]).waste_area =
      L.width * L.height - p.width * p.height ∧
    (calculate_summary req [L]).total_panels = 1 := by
  rw [calculate_summary]
  dsimp only
  split <;>
  · dsimp only
    constructor
    · dsimp only [List.foldl]
      rw [hp]
      dsimp only [List.foldl]
      ring
    · rfl

theorem swap_or_self_exact {x y : Item} {c : Prop} [Decidable c]
    (hcr : c → x.can_rotate = true)
    (hy : y = if c then
      { id := x.id, width := x.height, height := x.width,
        quantity := x.quantity, can_rotate := x.can_rotate } else x) :
    (y.width = x.width ∧ y.height = x.height) ∨
    (y.can_rotate = true ∧ y.width = x.height ∧ y.height = x.width) := by
  subst hy
  split
  case isTrue h => exact Or.inr ⟨hcr h, rfl, rfl⟩
  case isFalse => exact Or.inl ⟨rfl, rfl⟩

theorem gss_singleton_elem {x : Item} {s : List Item}
    (hs : s ∈ generate_sort_strategies [x]) :
    ∃ y, s = [y] ∧
      ((y.width = x.width ∧ y.height = x.height) ∨
       (y.can_rotate = true ∧ y.width = x.height ∧ y.height = x.width)) := by
  rw [generate_sort_strategies] at hs
  simp only [List.mem_cons, List.not_mem_nil, or_false] at hs
  rcases hs with rfl | rfl | rfl | rfl | rfl | rfl
  · exact ⟨x, sortBy_singleton _ _, Or.inl ⟨rfl, rfl⟩⟩
  · exact ⟨x, sortBy_singleton _ _, Or.inl ⟨rfl, rfl⟩⟩
  · exact ⟨x, sortBy_singleton _ _, Or.inl ⟨rfl, rfl⟩⟩
  · exact ⟨_, sortBy_singleton _ _, swap_or_self_exact (fun h => h.1) rfl⟩
  · exact ⟨_, sortBy_singleton _ _, swap_or_self_exact (fun h => h.1) rfl⟩
  · exact ⟨_, sortBy_singleton _ _, swap_or_self_exact (fun h => h.1) rfl⟩

theorem bfd_single_spec {req : OptimizationRequest} {pt : PanelType} {y : Item}
    (hpanels : req.panel_types = [pt])
    (hpos1 : 0 < pt.width - pt.trimming * 2)
    (hpos2 : 0 < pt.height - pt.trimming * 2)
    (hfits : FitsDims y (pt.width - pt.trimming * 2) (pt.height - pt.trimming * 2)) :
    ∃ L p, bfdAux req [y] [] = .ok [L] ∧
      L.width * L.height = pt.width * pt.height ∧
      L.placements = [p] ∧
      p.width * p.height = y.width * y.height := by
  have hptmem : pt ∈ req.panel_types := by
    rw [hpanels]; exact List.mem_cons_self _ _
  have hbase : (pt.width, pt.height) ∈ orientationsOf pt := by
    rw [orientationsOf]
    split <;> exact List.mem_cons_self _ _
  have hnoterr : ∀ e, place_on_new_panel req y ≠ .error e := by
    intro e he
    obtain ⟨_, hf⟩ := place_on_new_panel_error_elim he
    have h1 := newPanelFold_none_iff.mp hf pt hptmem (pt.width, pt.height) hbase
    rcases best_new_panel_placement_none_iff.mp h1 with (hle | hle) | hnf
    · dsimp at hle; linarith
    · dsimp at hle; linarith
    · exact hnf hfits
  rcases hpl : place_on_new_panel req y with e | o
  · exact absurd hpl (hnoterr e)
  · match o, hpl with
    | none, hpl => exact absurd hpl (place_on_new_panel_ne_ok_none req y)
    | some (pt', pw, ph, pl), hpl =>
      obtain ⟨hptm2, horient, s2, hbnpp⟩ := place_on_new_panel_spec hpl
      have hpt' : pt = pt' := by
        rw [hpanels] at hptm2
        have h3 : pt' = pt := by simpa using hptm2
        exact h3.symm
      subst hpt'
      have hnpp := (best_new_panel_placement_spec hbnpp).2.2
      refine ⟨_, pl, bfd_single_new hpl, ?_, rfl, ?_⟩
      · dsimp only
        exact orientations_mul (pw, ph) horient
      · rcases hnpp.2.2.2.2.2 with hd | hd
        · rw [hd.1, hd.2]
        · rw [hd.2.1, hd.2.2]
          exact mul_comm _ _

/-! ## Claim C7: exact-fit single item, one panel, waste -/

/-- C7 (amended): for a validated request with a single panel type, no
optional items, and exactly one item of quantity 1 (rotatable or not) whose
dimensions equal the panel's usable dimensions, `optimize` succeeds with
exactly one panel — but `summary.waste_area` equals the trimming band
`width·height − usable_width·usable_height`, not 0: the waste accounting
charges the whole panel area, so the claimed zero waste holds only when the
trimming is zero (refuted at positive trimming by `C7_counterexample`). -/
theorem C7_exact_fit {req : OptimizationRequest} {pt : PanelType} {item : Item}
    {fuel : Nat}
    (hpanels : req.panel_types = [pt])
    (hopt : pt.optional_items = [])
    (hitems : req.items = [item])
    (hqty : item.quantity = 1)
    (hv : validate req = none)
    (hw : item.width = pt.width - pt.trimming * 2)
    (hh : item.height = pt.height - pt.trimming * 2) :
    ∃ res, optimize req fuel = some (.ok res) ∧
      res.layouts.length = 1 ∧
      res.summary.total_panels = 1 ∧
      res.summary.waste_area =
        pt.width * pt.height -
          (pt.width - pt.trimming * 2) * (pt.height - pt.trimming * 2) := by
  have hexp : expand_items req =
      [{ id := item.id, width := item.width, height := item.height,
         quantity := 1, can_rotate := item.can_rotate }] := by
    simp [expand_items, hitems, expandOne, hqty, List.range_succ]
  obtain ⟨x, hxexp, hxw, hxh⟩ :
      ∃ x : Item, expand_items req = [x] ∧ x.width = item.width ∧
        x.height = item.height :=
    ⟨_, hexp, rfl, rfl⟩
  have hptmem : pt ∈ req.panel_types := by
    rw [hpanels]; exact List.mem_cons_self _ _
  have hpos := validate_pos hv pt hptmem
  have hQ : ∀ s ∈ generate_sort_strategies (expand_items req), ∀ out,
      best_fit_decreasing_optimize req s = .ok out →
      (fun ls => ∃ L p, ls = [L] ∧ L.width * L.height = pt.width * pt.height ∧
        L.placements = [p] ∧ p.width * p.height = item.width * item.height)
        (try_reduce_panels req out (expand_items req)) := by
    intro s hs out hout
    rw [hxexp] at hs
    obtain ⟨y, rfl, hdims⟩ := gss_singleton_elem hs
    have hyfits : FitsDims y (pt.width - pt.trimming * 2)
        (pt.height - pt.trimming * 2) := by
      unfold FitsDims
      rcases hdims with ⟨h1, h2⟩ | ⟨hr, h1, h2⟩
      · exact Or.inl ⟨le_of_eq (h1.trans (hxw.trans hw)),
          le_of_eq (h2.trans (hxh.trans hh))⟩
      · exact Or.inr ⟨hr, le_of_eq (h2.trans (hxw.trans hw)),
          le_of_eq (h1.trans (hxh.trans hh))⟩
    have hyprod : y.width * y.height = item.width * item.height := by
      rcases hdims with ⟨h1, h2⟩ | ⟨_, h1, h2⟩
      · rw [h1, h2, hxw, hxh]
      · rw [h1, h2, hxw, hxh]
        exact mul_comm _ _
    obtain ⟨L, p, hbfd, hLwh, hLp, hparea⟩ :=
      bfd_single_spec hpanels hpos.1 hpos.2 hyfits
    have hout2 : out = [L] := by
      have h2 := hbfd.symm.trans hout
      injection h2 with h2
      exact h2.symm
    subst hout2
    rw [try_reduce_panels, if_pos (by simp)]
    exact ⟨L, p, rfl, hLwh, hLp, hparea.trans hyprod⟩
  rw [optimize]
  rcases hbs : bestStrategyResult req (expand_items req)
      (generate_sort_strategies (expand_items req)) with _ | ⟨ls, pc, wst⟩
  · exfalso
    have hall := bestStrategyResult_none_iff.mp hbs
    have hxfits : FitsDims x (pt.width - pt.trimming * 2)
        (pt.height - pt.trimming * 2) := by
      unfold FitsDims
      exact Or.inl ⟨le_of_eq (hxw.trans hw), le_of_eq (hxh.trans hh)⟩
    obtain ⟨L, p, hbfd, _, _, _⟩ := bfd_single_spec hpanels hpos.1 hpos.2 hxfits
    have hmem : [x] ∈ generate_sort_strategies (expand_items req) := by
      rw [hxexp, generate_sort_strategies]
      have h1 : sortBy cmpAreaDesc [x] = [x] := sortBy_singleton _ _
      rw [h1]
      exact List.mem_cons_self _ _
    obtain ⟨e, he⟩ := hall _ hmem
    exact absurd (hbfd.symm.trans he) (by simp)
  · dsimp only
    obtain ⟨L, p, hls, hLwh, hLp, hparea⟩ := bestStrategyResult_pred
      (fun ls => ∃ L p, ls = [L] ∧ L.width * L.height = pt.width * pt.height ∧
        L.placements = [p] ∧ p.width * p.height = item.width * item.height)
      hQ hbs
    subst hls
    rw [try_add_empty_pool (optional_pool_empty (by
      intro pt2 hpt2
      rw [hpanels, List.mem_singleton] at hpt2
      subst hpt2
      exact hopt))]
    dsimp only
    refine ⟨_, rfl, ?_, ?_, ?_⟩
    · dsimp only
      simp
    · dsimp only
      have hmap : List.map
          (fun l : PanelLayout =>
            { l with unused_areas := compute_output_unused_areas req l }) [L] =
          [{ L with unused_areas := compute_output_unused_areas req L }] := rfl
      rw [hmap]
      exact (@summary_single req
        { L with unused_areas := compute_output_unused_areas req L } p hLp).2
    · dsimp only
      have hmap : List.map
          (fun l : PanelLayout =>
            { l with unused_areas := compute_output_unused_areas req l }) [L] =
          [{ L with unused_areas := compute_output_unused_areas req L }] := rfl
      rw [hmap,
        (@summary_single req
          { L with unused_areas := compute_output_unused_areas req L } p hLp).1]
      dsimp only
      rw [hLwh, hparea, hw, hh]

/-- Witness for the amended C7 at a concrete exact-fit request. -/
theorem C7_exact_fit_witness :
    validate exExactReq = none ∧
    ∃ res, optimize exExactReq 9 = some (.ok res) ∧
      res.layouts.length = 1 ∧
      res.summary.total_panels = 1 ∧
      res.summary.waste_area =
        (100 : ℚ) * 60 - (100 - 5 * 2) * (60 - 5 * 2) :=
  ⟨by decide,
    @C7_exact_fit exExactReq
      { id := "p", width := 100, height := 60, trimming := 5, optional_items := [] }
      { id := "a", width := 90, height := 50, quantity := 1, can_rotate := true }
      9 rfl rfl rfl rfl (by decide) (by decide) (by decide)⟩

/-- C7 counterexample: `exTrimReq` satisfies every hypothesis of the claim
(valid request, one quantity-1 item whose dimensions equal the single panel
type's usable dimensions), `optimize` succeeds with one panel, yet
`summary.waste_area` is 3600, not 0 — the trimming band is counted as waste. -/
theorem C7_counterexample :
    validate exTrimReq = none ∧
    exTrimReq.panel_types.map
      (fun pt => (pt.width - pt.trimming * 2, pt.height - pt.trimming * 2)) =
      [((80 : ℚ), (80 : ℚ))] ∧
    exTrimReq.items.map (fun i => (i.width, i.height, i.quantity)) =
      [((80 : ℚ), (80 : ℚ), 1)] ∧
    optimize exTrimReq 9 = some (.ok exTrimRes) ∧
    exTrimRes.summary.total_panels = 1 ∧
    exTrimRes.summary.waste_area = 3600 := by
  decide

/-! ## Claim C8 machinery: backfill idempotence -/

theorem pushPlacementAt_length :
    ∀ (ls : List PanelLayout) (j : Nat) (pl : Placement),
      (pushPlacementAt ls j pl).length = ls.length := by
  intro ls
  induction ls with
  | nil => intro j pl; rfl
  | cons a rest ih =>
    intro j pl
    cases j with
    | zero => rfl
    | succ n =>
      rw [pushPlacementAt]
      simp [ih n pl]

theorem optionalLoop_exit {req : OptimizationRequest} {panel_count : Nat}
    {pool : List (String × OptionalItem)} :
    ∀ (fuel : Nat) (ls : List PanelLayout) (used : List String)
      {out : List PanelLayout} {used2 : List String},
      optionalLoop req panel_count pool fuel ls used = some (out, used2) →
      optionalPass req panel_count pool out = none ∧ out.length = ls.length := by
  intro fuel
  induction fuel with
  | zero =>
    intro ls used out used2 h
    exact absurd h (by rw [optionalLoop]; simp)
  | succ n ih =>
    intro ls used out used2 h
    rw [optionalLoop] at h
    rcases hp : optionalPass req panel_count pool ls with _ | ⟨nl, id⟩
    · rw [hp] at h
      dsimp only at h
      injection h with h
      injection h with h1 h2
      subst h1
      exact ⟨hp, rfl⟩
    · rw [hp] at h
      dsimp only at h
      obtain ⟨hexit, hlen⟩ := ih _ _ h
      obtain ⟨entry, _, _, j, layout, pl, hj, _, rfl⟩ := optionalPass_spec hp
      exact ⟨hexit, hlen.trans (pushPlacementAt_length ls j pl)⟩

/-! ## Claim C8: the optional backfill is idempotent -/

/-- C8: the optional backfill is idempotent. Whenever
`try_add_optional_items` terminates (any fuel) with layouts `Lout`, running
it again on `Lout` (any positive fuel) returns `Lout` unchanged with an empty
`optional_items_used` list: either the second run exits early (waste already
at most 8% or empty pool), or its first pass is the failing pass that ended
the first run. -/
theorem C8_backfill_idempotent {req : OptimizationRequest} {fuel fuel' : Nat}
    {L Lout : List PanelLayout} {used : List String}
    (h : try_add_optional_items req fuel L = some (Lout, used))
    (hf : 1 ≤ fuel') :
    try_add_optional_items req fuel' Lout = some (Lout, []) := by
  rw [try_add_optional_items] at h
  split at h
  case isTrue hw8 =>
    injection h with h
    injection h with h1 h2
    subst h1
    rw [try_add_optional_items]
    dsimp only
    rw [if_pos hw8]
  case isFalse hw8 =>
    dsimp only at h
    split at h
    case isTrue hpool =>
      injection h with h
      injection h with h1 h2
      subst h1
      rw [try_add_optional_items]
      dsimp only
      rw [if_neg hw8, if_pos hpool]
    case isFalse hpool =>
      obtain ⟨hexit, hlen⟩ := optionalLoop_exit _ _ _ h
      rw [try_add_optional_items]
      dsimp only
      by_cases hw2 : effectiveWastePct (calculate_summary req Lout) ≤ 8
      · rw [if_pos hw2]
      · rw [if_neg hw2, if_neg hpool]
        obtain ⟨f2, rfl⟩ : ∃ f2, fuel' = f2 + 1 := ⟨fuel' - 1, by omega⟩
        rw [optionalLoop, hlen, hexit]

/-- Witness for C8: the backfill places the optional item once on
`exOptLayouts`; a second run commits nothing. -/
theorem C8_backfill_idempotent_witness :
    try_add_optional_items exOptReq 3 exOptLayouts =
      some (exOptBack.1, exOptBack.2) ∧
    try_add_optional_items exOptReq 1 exOptBack.1 = some (exOptBack.1, []) :=
  ⟨by decide,
    @C8_backfill_idempotent exOptReq 3 1 exOptLayouts exOptBack.1 exOptBack.2
      (by decide) (le_refl 1)⟩

/-! ## Claim C10 machinery: the backfill frame property -/

theorem backfillFrame_refl (req : OptimizationRequest) (l : PanelLayout) :
    BackfillFrame req l l :=
  ⟨rfl, rfl, rfl, rfl, rfl, rfl, [], (List.append_nil _).symm,
    fun p hp => absurd hp (by simp)⟩

theorem frame_refl_all (req : OptimizationRequest) (L : List PanelLayout) :
    List.Forall₂ (BackfillFrame req) L L := by
  induction L with
  | nil => exact List.Forall₂.nil
  | cons a rest ih => exact List.Forall₂.cons (backfillFrame_refl req a) ih

theorem backfillFrame_push {req : OptimizationRequest} {pl : Placement}
    (hopt : ∃ pt ∈ req.panel_types, ∃ o ∈ pt.optional_items, pl.item_id = o.id) :
    ∀ {L cur : List PanelLayout}, List.Forall₂ (BackfillFrame req) L cur →
      ∀ (j : Nat), List.Forall₂ (BackfillFrame req) L (pushPlacementAt cur j pl) := by
  intro L cur h
  induction h with
  | nil => intro j; exact List.Forall₂.nil
  | @cons a b as bs ha htail ih =>
    intro j
    cases j with
    | zero =>
      refine List.Forall₂.cons ?_ htail
      obtain ⟨h1, h2, h3, h4, h5, h6, t, hteq, hsrc⟩ := ha
      refine ⟨h1, h2, h3, h4, h5, h6, t ++ [pl], ?_, ?_⟩
      · show b.placements ++ [pl] = a.placements ++ (t ++ [pl])
        rw [hteq, List.append_assoc]
      · intro p hp
        rcases List.mem_append.mp hp with hp | hp
        · exact hsrc p hp
        · rw [List.mem_singleton] at hp
          subst hp
          exact hopt
    | succ n => exact List.Forall₂.cons ha (ih n)

theorem optionalLoop_frame {req : OptimizationRequest} {panel_count : Nat}
    {pool : List (String × OptionalItem)} (hpool : pool = optional_pool req) :
    ∀ (fuel : Nat) (cur : List PanelLayout) (used : List String)
      {out : List PanelLayout} {used2 : List String},
      optionalLoop req panel_count pool fuel cur used = some (out, used2) →
      ∀ {L : List PanelLayout}, List.Forall₂ (BackfillFrame req) L cur →
      List.Forall₂ (BackfillFrame req) L out := by
  intro fuel
  induction fuel with
  | zero =>
    intro cur used out used2 h
    exact absurd h (by rw [optionalLoop]; simp)
  | succ n ih =>
    intro cur used out used2 h L hL
    rw [optionalLoop] at h
    rcases hp : optionalPass req panel_count pool cur with _ | ⟨nl, id⟩
    · rw [hp] at h
      dsimp only at h
      injection h with h
      injection h with h1 h2
      exact h1 ▸ hL
    · rw [hp] at h
      dsimp only at h
      obtain ⟨entry, hentry, hid, j, layout, pl, hj, htpi, rfl⟩ := optionalPass_spec hp
      refine ih _ _ h (backfillFrame_push ?_ hL j)
      obtain ⟨pt, hpt, hpid, hoi⟩ := mem_optional_pool (hpool ▸ hentry)
      exact ⟨pt, hpt, entry.2, hoi, (try_place_item_good htpi).1⟩

/-! ## Claim C10: the backfill only appends optional placements -/

/-- C10: frame property of the optional backfill. When
`try_add_optional_items` terminates, the returned layout list has the same
length and order as the input; every layout keeps its `panel_type_id`,
`panel_number`, `width`, `height`, `trimming` (and `unused_areas`) unchanged;
and its original placement sequence is preserved as a prefix, with every
appended placement carrying the id of some optional item of the request. -/
theorem C10_backfill_frame {req : OptimizationRequest} {fuel : Nat}
    {L Lout : List PanelLayout} {used : List String}
    (h : try_add_optional_items req fuel L = some (Lout, used)) :
    List.Forall₂ (BackfillFrame req) L Lout := by
  rw [try_add_optional_items] at h
  split at h
  · injection h with h
    injection h with h1 h2
    exact h1 ▸ frame_refl_all req L
  · dsimp only at h
    split at h
    · injection h with h
      injection h with h1 h2
      exact h1 ▸ frame_refl_all req L
    · exact optionalLoop_frame rfl _ _ _ h (frame_refl_all req L)

/-- Witness for C10 on the concrete optional-item run. -/
theorem C10_backfill_frame_witness :
    try_add_optional_items exOptReq 3 exOptLayouts =
      some (exOptBack.1, exOptBack.2) ∧
    List.Forall₂ (BackfillFrame exOptReq) exOptLayouts exOptBack.1 :=
  ⟨by decide,
    @C10_backfill_frame exOptReq 3 exOptLayouts exOptBack.1 exOptBack.2 (by decide)⟩

/-! ## Claim C9: an item with quantity zero is silently dropped -/

theorem mem_allIds {ls : List PanelLayout} {l : PanelLayout} {p : Placement}
    (hl : l ∈ ls) (hp : p ∈ l.placements) : p.item_id ∈ allIds ls :=
  List.mem_flatMap.mpr ⟨l, hl, List.mem_map_of_mem _ hp⟩

/-- C9 (implicit): item quantity is never validated. A request that passes
the panel checks and has nonempty panel and item lists is accepted by
`Optimizer::new` even when some item has quantity 0 (`validate` never reads
quantities); that item expands to zero physical copies; and — when its id is
not produced by any other item's expansion nor used by an optional item — no
placement of any successful result references it. -/
theorem C9_quantity_zero {req : OptimizationRequest} {item : Item}
    (hpe : req.panel_types ≠ []) (hie : req.items ≠ [])
    (hpv : validatePanels req.panel_types = none)
    (hmem : item ∈ req.items) (hq : item.quantity = 0)
    (hfresh : ∀ it ∈ req.items, item.id ∉ (expandOne it).map (fun i => i.id))
    (hfresh2 : ∀ pt ∈ req.panel_types, ∀ o ∈ pt.optional_items, o.id ≠ item.id) :
    validate req = none ∧ expandOne item = [] ∧
    ∀ (fuel : Nat) (res : OptimizationResult),
      optimize req fuel = some (.ok res) →
      ∀ l ∈ res.layouts, ∀ p ∈ l.placements, p.item_id ≠ item.id := by
  refine ⟨?_, ?_, ?_⟩
  · rw [validate, if_neg hpe, if_neg hie]
    exact hpv
  · rw [expandOne, hq]
    rfl
  · intro fuel res hopt l hl p hp hpid
    have hidmem : item.id ∈ allIds res.layouts := hpid ▸ mem_allIds hl hp
    obtain ⟨hperm, hused⟩ := optimize_ids hopt
    rcases List.mem_append.mp (hperm.mem_iff.mp hidmem) with hex | hu
    · obtain ⟨e, he, heid⟩ := List.mem_map.mp hex
      rw [expand_items] at he
      obtain ⟨it, hit, hein⟩ := List.mem_flatMap.mp he
      exact hfresh it hit (heid ▸ List.mem_map_of_mem _ hein)
    · obtain ⟨pt, hpt, o, ho, hoid⟩ := hused _ hu
      exact hfresh2 pt hpt o ho hoid.symm

/-- Witness for C9 at a request holding a quantity-zero item beside a normal
one. -/
theorem C9_quantity_zero_witness :
    validate exQtyZeroReq = none ∧
    expandOne { id := "ghost", width := 50, height := 50, quantity := 0,
                can_rotate := false } = [] ∧
    ∀ (fuel : Nat) (res : OptimizationResult),
      optimize exQtyZeroReq fuel = some (.ok res) →
      ∀ l ∈ res.layouts, ∀ p ∈ l.placements, p.item_id ≠ "ghost" :=
  @C9_quantity_zero exQtyZeroReq
    { id := "ghost", width := 50, height := 50, quantity := 0, can_rotate := false }
    (by decide) (by decide) (by decide) (by decide) rfl (by decide) (by decide)

end CutOpt
